import Mathlib

/-!
Verification development for `navigation_app/static/js/speech.js`.

A shallow embedding of the `SpeechService` class (the choice of the preferred
voice, the speech output queue, the recognition sessions and the yes/no
confirmation dialog) and of the module-level MP3 alert queue (`enqueueMp3`,
`playNextMp3`), which has a state of its own, `Mp3World`.

The JavaScript object and the platform capabilities it drives are made explicit
in a `World` record: the fields of the service, the synthesis engine (what was
handed to it, what is still active, which cancelled utterances still owe their
event), the pending timer continuations, the recognition objects created so
far, and a log of the calls that leave the module (speak requests, recognition
sessions, the selection callback).
-/

namespace SpeechJs

/-! ## Data model -/

/-- The `priority` argument of `speak`: the code only tests `priority === 'high'`. -/
inductive Priority where
  | normal
  | high
  deriving DecidableEq, Repr

/-- The callback given to `initSpeechRecognition`, defunctionalised:
no callback, a function of a caller outside this file (named by a tag), or the
arrow function that `askNext` builds, which captures `dest` and whether a
`selectionCallback` was supplied. -/
inductive RecogCallback where
  | absent
  | caller (tag : Nat)
  | confirm (dest : String) (hasCallback : Bool)
  deriving DecidableEq, Repr

/-- A `SpeechRecognition` object made by `initSpeechRecognition`: the callback its
`onresult` handler closes over, and whether it is between `start()` and its end event. -/
structure Recognition where
  callback : RecogCallback
  started : Bool
  deriving DecidableEq, Repr

/-- One alternative of a recognition result; `confidence` is `none` when the
property is missing. -/
structure Alternative where
  transcript : String
  confidence : Option ℚ
  deriving DecidableEq

/-- The continuations handed to `setTimeout`: `processVoiceQueue` after 100 ms,
`startListening` after 500 ms (`onend`), the guarded retry after 2000 ms (`onerror`). -/
inductive Timer where
  | processVoiceQueue
  | autoRestart
  | retry
  deriving DecidableEq, Repr

/-- Calls that are observed from outside the service. -/
inductive Obs where
  | speak (text : String) (priority : Priority)
  | newRecognition (id : Nat)
  | recognitionStart (id : Nat) (ok : Bool)
  | recognitionStop (id : Nat)
  | selection (dest : Option String)
  | heard (tag : Nat) (transcript : String)
  deriving DecidableEq, Repr

/-- The fields of a `SpeechService` instance (`recognition` is an index into the
recognition objects of the world, `none` for `null`). -/
structure SpeechService where
  recognition : Option Nat
  isListening : Bool
  isVoiceEnabled : Bool
  voiceQueue : List String
  isSpeaking : Bool
  autoRecognitionEnabled : Bool
  confirmationDestinations : List String
  currentConfirmationIndex : Nat
  deriving DecidableEq, Repr

/-- The service together with the platform around it.
* `synthesisUsable`: `this.synthesis` exists and its `speak` is a function;
* `recognitionSupported`: `window.SpeechRecognition || window.webkitSpeechRecognition`;
* `handed`: every text given to `synthesis.speak`, in order;
* `active`: the utterances given to the engine that have neither ended nor been cancelled;
* `cancelled`: cancelled utterances whose event has not been delivered yet;
* `timers`: pending `setTimeout` continuations;
* `recogs`: the recognition objects created so far;
* `log`: the observed calls, oldest first. -/
structure World where
  svc : SpeechService
  synthesisUsable : Bool
  recognitionSupported : Bool
  handed : List String
  active : List String
  cancelled : Nat
  timers : List Timer
  recogs : List Recognition
  log : List Obs
  deriving DecidableEq, Repr

/-- The state right after `new SpeechService()` on a platform with the given capabilities. -/
def World.init (synthesisUsable recognitionSupported : Bool) : World :=
  { svc :=
      { recognition := none
        isListening := false
        isVoiceEnabled := true
        voiceQueue := []
        isSpeaking := false
        autoRecognitionEnabled := false
        confirmationDestinations := []
        currentConfirmationIndex := 0 }
    synthesisUsable := synthesisUsable
    recognitionSupported := recognitionSupported
    handed := []
    active := []
    cancelled := 0
    timers := []
    recogs := []
    log := [] }

/-! ## Speech output queue -/

/-- `processVoiceQueue()`: with an empty queue mark idle, otherwise take the head
and give it to `synthesis.speak`. -/
def processVoiceQueue (w : World) : World :=
  match w.svc.voiceQueue with
  | [] => { w with svc := { w.svc with isSpeaking := false } }
  | text :: rest =>
    { w with
      svc := { w.svc with isSpeaking := true, voiceQueue := rest }
      handed := w.handed ++ [text]
      active := w.active ++ [text] }

/-- `synthesis.cancel()`: the engine drops every utterance it holds; each of them
still raises one event later. -/
def synthesisCancel (w : World) : World :=
  { w with active := [], cancelled := w.cancelled + w.active.length }

/-- `speak(text, priority)`. -/
def speak (text : String) (priority : Priority) (w0 : World) : World :=
  let w := { w0 with log := w0.log ++ [Obs.speak text priority] }
  if !w.svc.isVoiceEnabled then w
  else if !w.synthesisUsable then w
  else
    let w1 :=
      if priority = Priority.high && w.svc.isSpeaking then
        let c := synthesisCancel w
        { c with svc := { c.svc with voiceQueue := [] } }
      else w
    let w2 := { w1 with svc := { w1.svc with voiceQueue := w1.svc.voiceQueue ++ [text] } }
    if !w2.svc.isSpeaking then processVoiceQueue w2 else w2

/-- `setVoiceEnabled(enabled)`. -/
def setVoiceEnabled (enabled : Bool) (w0 : World) : World :=
  let w := { w0 with svc := { w0.svc with isVoiceEnabled := enabled } }
  if !enabled then
    let c := synthesisCancel w
    { c with svc := { c.svc with voiceQueue := [], isSpeaking := false } }
  else w

/-! ## Recognition sessions -/

/-- `initSpeechRecognition(callback)`: without platform support nothing changes,
otherwise a new recognition object replaces `this.recognition`. -/
def initSpeechRecognition (cb : RecogCallback) (w : World) : World :=
  if !w.recognitionSupported then w
  else
    { w with
      recogs := w.recogs ++ [{ callback := cb, started := false }]
      svc := { w.svc with recognition := some w.recogs.length }
      log := w.log ++ [Obs.newRecognition w.recogs.length] }

/-- `startListening()`: `recognition.start()` throws on an object that is already
started; the exception is caught and `isListening` is then not assigned. -/
def startListening (w : World) : World :=
  match w.svc.recognition with
  | none => w
  | some id =>
    match w.recogs[id]? with
    | none => w
    | some r =>
      if r.started then
        { w with log := w.log ++ [Obs.recognitionStart id false] }
      else
        { w with
          recogs := w.recogs.set id { r with started := true }
          svc := { w.svc with isListening := true }
          log := w.log ++ [Obs.recognitionStart id true] }

/-- `stopListening()`. -/
def stopListening (w : World) : World :=
  match w.svc.recognition with
  | none => w
  | some id =>
    if w.svc.isListening then
      { w with
        svc := { w.svc with isListening := false }
        log := w.log ++ [Obs.recognitionStop id] }
    else w

/-- `enableAutoRecognition()`. -/
def enableAutoRecognition (w0 : World) : World :=
  let w := { w0 with svc := { w0.svc with autoRecognitionEnabled := true } }
  if !w.svc.isListening && w.svc.recognition.isSome then startListening w else w

/-- `disableAutoRecognition()`. -/
def disableAutoRecognition (w : World) : World :=
  { w with svc := { w.svc with autoRecognitionEnabled := false } }

/-! ## Answer classification -/

/-- The characters `String.prototype.trim` strips: WhiteSpace and LineTerminator. -/
def isJsWhiteSpace (c : Char) : Bool :=
  c.toNat ∈ [0x09, 0x0A, 0x0B, 0x0C, 0x0D, 0x20, 0xA0, 0x1680, 0x2028, 0x2029,
      0x202F, 0x205F, 0x3000, 0xFEFF]
    || (0x2000 ≤ c.toNat && c.toNat ≤ 0x200A)

/-- Lower-casing of one character as far as the patterns can see it: the ASCII
capitals, and the two other characters whose lower case contains an ASCII letter
(U+212A KELVIN SIGN gives k, U+0130 gives i followed by U+0307). The patterns
hold only ASCII small letters and Hangul syllables, which have no case; any other
cased letter is kept as it is, which changes no pattern test (only the text echoed
by a clarification request can differ from the browser in such a letter). -/
def lowerChar (c : Char) : List Char :=
  if 0x41 ≤ c.toNat ∧ c.toNat ≤ 0x5A then [Char.ofNat (c.toNat + 32)]
  else if c.toNat = 0x212A then ['k']
  else if c.toNat = 0x130 then ['i', Char.ofNat 0x307]
  else [c]

/-- `s.toLowerCase()`, character by character through `lowerChar`: the result agrees
with the browser on every pattern test; as a text it is the browser's when the
cased letters of `s` are among those `lowerChar` handles. -/
def toLowerCase (s : String) : String :=
  ⟨s.data.flatMap lowerChar⟩

/-- `s.trim()`. -/
def trim (s : String) : String :=
  ⟨(s.data.dropWhile isJsWhiteSpace).rdropWhile isJsWhiteSpace⟩

/-- `pattern.test(s)` for a regular expression that is a plain literal: `s` has
the literal as a substring. -/
def regexTest (pattern s : String) : Bool :=
  s.data.tails.any (fun t => pattern.data.isPrefixOf t)

/-- The array `positivePatterns` of the recognition callback. -/
def positivePatterns : List String :=
  ["네", "예", "응", "좋아", "맞아", "맞아요", "맞습니다", "맞습니다요",
   "그래", "그래요", "그렇습니다", "그렇습니다요", "좋습니다", "좋습니다요",
   "확인", "확인해", "확인해요", "확인합니다", "확인합니다요",
   "선택", "선택해", "선택해요", "선택합니다", "선택합니다요",
   "설정", "설정해", "설정해요", "설정합니다", "설정합니다요",
   "진행", "진행해", "진행해요", "진행합니다", "진행합니다요",
   "시작", "시작해", "시작해요", "시작합니다", "시작합니다요",
   "go", "yes", "ok", "okay", "yep", "yeah", "sure", "right"]

/-- The array `negativePatterns` of the recognition callback. -/
def negativePatterns : List String :=
  ["아니", "아니오", "아냐", "아닙니다", "아닙니다요",
   "틀려", "틀렸", "틀렸어", "틀렸어요", "틀렸습니다", "틀렸습니다요",
   "다시", "다시해", "다시해요", "다시합니다", "다시합니다요",
   "취소", "취소해", "취소해요", "취소합니다", "취소합니다요",
   "no", "nope", "not", "wrong", "cancel", "stop"]

/-- `positivePatterns.some(pattern => pattern.test(answer))`. -/
def isPositive (answer : String) : Bool :=
  positivePatterns.any (fun p => regexTest p answer)

/-- `negativePatterns.some(pattern => pattern.test(answer))`. -/
def isNegative (answer : String) : Bool :=
  negativePatterns.any (fun p => regexTest p answer)

/-- `transcript.toLowerCase().trim()`. -/
def normalizeAnswer (transcript : String) : String :=
  trim (toLowerCase transcript)

/-- The affirmative forms that the specification lists by name. -/
def specAffirmativeForms : List String :=
  ["네", "예", "응", "좋아", "확인", "선택", "설정", "진행", "시작",
   "yes", "ok", "okay", "yep", "yeah", "sure", "right"]

/-- The negative forms that the specification lists by name. -/
def specNegativeForms : List String :=
  ["아니", "아니오", "아냐", "틀려", "틀렸", "다시", "취소",
   "no", "nope", "not", "wrong", "cancel", "stop"]

/-- A text that `trim` leaves alone: it is not empty and neither its first nor its
last character is white space. -/
def isTrimmed (s : String) : Bool :=
  match s.data.head?, s.data.getLast? with
  | some a, some b => !isJsWhiteSpace a && !isJsWhiteSpace b
  | _, _ => false

/-! ## Confirmation dialog -/

/-- The text spoken when the working set is exhausted. -/
def notSelectedText : String := "목적지가 선택되지 않았습니다."

/-- The text spoken after an affirmative answer. -/
def selectedText : String := "선택되었습니다."

/-- The prompt template of `askNext`; `n` is the 1-based position. -/
def promptText (n : Nat) (dest : String) : String :=
  "제안 " ++ toString n ++ ": " ++ dest ++
    ". 이 목적지로 선택하시겠습니까? 네 또는 아니오로 대답해주세요."

/-- The clarification request, echoing the normalized answer in double quotes. -/
def clarifyText (answer : String) : String :=
  "\x22" ++ answer ++ "\x22로 인식되었습니다. 네 또는 아니오로 명확하게 대답해주세요."

/-- `if (selectionCallback) selectionCallback(dest)`. -/
def callSelection (hasCallback : Bool) (dest : Option String) (w : World) : World :=
  if hasCallback then { w with log := w.log ++ [Obs.selection dest] } else w

/-- The closure `askNext` of `confirmDestinations`. The index read in the second
branch is in range by the test of the first. -/
def askNext (hasCallback : Bool) (w : World) : World :=
  if w.svc.currentConfirmationIndex ≥ w.svc.confirmationDestinations.length then
    callSelection hasCallback none (speak notSelectedText Priority.high w)
  else
    let dest := w.svc.confirmationDestinations.getD w.svc.currentConfirmationIndex ""
    let w1 := speak (promptText (w.svc.currentConfirmationIndex + 1) dest) Priority.normal w
    let w2 := initSpeechRecognition (RecogCallback.confirm dest hasCallback) w1
    startListening w2

/-- The recognition callback that `askNext` registers. -/
def confirmCallback (dest : String) (hasCallback : Bool) (transcript : String)
    (w : World) : World :=
  let answer := normalizeAnswer transcript
  if isPositive answer then
    callSelection hasCallback (some dest) (speak selectedText Priority.normal w)
  else if isNegative answer then
    askNext hasCallback
      { w with svc := { w.svc with
          currentConfirmationIndex := w.svc.currentConfirmationIndex + 1 } }
  else
    askNext hasCallback (speak (clarifyText answer) Priority.normal w)

/-- A value given as the `destinations` argument: an array of destinations or
anything else. -/
inductive Destinations where
  | notArray
  | array (items : List String)
  deriving DecidableEq, Repr

/-- `confirmDestinations(destinations, selectionCallback)`. -/
def confirmDestinations (destinations : Destinations) (hasCallback : Bool)
    (w : World) : World :=
  match destinations with
  | Destinations.array (d :: ds) =>
    askNext hasCallback
      { w with svc := { w.svc with
          confirmationDestinations := (d :: ds).take 3
          currentConfirmationIndex := 0 } }
  | _ => callSelection hasCallback none w

/-- `readTopDestinations(destinations)`. -/
def readTopDestinations (destinations : Destinations) (w : World) : World :=
  match destinations with
  | Destinations.notArray => w
  | Destinations.array items =>
    let message := ((items.take 3).enum.foldl
      (fun (m : String) (p : Nat × String) => m ++ toString (p.1 + 1) ++ "번: " ++ p.2 ++ ". ")
      "추천 목적지입니다. ")
    speak message Priority.normal w

/-! ## Platform events -/

/-- The selection loop of `recognition.onresult`: start from alternative 0 and
replace the best only by a strictly greater confidence (`confidence || 0`).
With no alternative at all `result[0].transcript` throws. -/
def bestTranscript : List Alternative → Option String
  | [] => none
  | a :: rest =>
    some (rest.foldl
      (fun (best : String × ℚ) (alt : Alternative) =>
        if alt.confidence.getD 0 > best.2 then (alt.transcript, alt.confidence.getD 0)
        else best)
      (a.transcript, a.confidence.getD 0)).1

/-- `callback(bestTranscript)` for each kind of callback. -/
def invokeCallback (cb : RecogCallback) (transcript : String) (w : World) : World :=
  match cb with
  | RecogCallback.absent => w
  | RecogCallback.caller tag => { w with log := w.log ++ [Obs.heard tag transcript] }
  | RecogCallback.confirm dest hasCallback => confirmCallback dest hasCallback transcript w

/-- `recognition.onresult` of an object whose handler closes over `cb`. -/
def onresult (cb : RecogCallback) (alts : List Alternative) (w : World) : World :=
  match bestTranscript alts with
  | none => w
  | some t => invokeCallback cb t w

/-- `recognition.onend`. -/
def onend (w0 : World) : World :=
  let w := { w0 with svc := { w0.svc with isListening := false } }
  if w.svc.autoRecognitionEnabled then { w with timers := w.timers ++ [Timer.autoRestart] }
  else w

/-- The message chosen by `recognition.onerror` for an error code. -/
def recognitionErrorMessage (code : String) : String :=
  if code = "no-speech" then "음성이 감지되지 않았습니다. 다시 말씀해주세요."
  else if code = "aborted" then "음성 인식이 중단되었습니다. 다시 시도해주세요."
  else if code = "audio-capture" then "마이크를 찾을 수 없습니다. 마이크 연결을 확인해주세요."
  else if code = "network" then
    "네트워크 오류로 음성 인식이 실패했습니다. 인터넷 연결을 확인해주세요."
  else if code = "not-allowed" then
    "마이크 사용 권한이 거부되었습니다. 브라우저 설정에서 마이크 권한을 허용해주세요."
  else if code = "service-not-allowed" then "음성 인식 서비스가 허용되지 않았습니다."
  else "음성 인식 중 오류가 발생했습니다."

/-- `recognition.onerror`; `this.speak(msg)` takes the default priority. -/
def onerror (code : String) (w0 : World) : World :=
  let w := { w0 with svc := { w0.svc with isListening := false } }
  let w1 := speak (recognitionErrorMessage code) Priority.normal w
  if code = "no-speech" ∨ code = "aborted" then
    { w1 with timers := w1.timers ++ [Timer.retry] }
  else w1

/-- What a timer continuation runs when its delay has elapsed. -/
def fireTimer (t : Timer) (w : World) : World :=
  match t with
  | Timer.processVoiceQueue => processVoiceQueue w
  | Timer.autoRestart => startListening w
  | Timer.retry => if !w.svc.isListening then startListening w else w

/-- Everything that can happen to the service: calls of its methods, and the
callbacks of the platform (each is enabled only when the platform can raise it). -/
inductive Event where
  | speak (text : String) (priority : Priority)
  | setVoiceEnabled (enabled : Bool)
  | initSpeechRecognition (tag : Option Nat)
  | startListening
  | stopListening
  | enableAutoRecognition
  | disableAutoRecognition
  | readTopDestinations (destinations : Destinations)
  | confirmDestinations (destinations : Destinations) (hasCallback : Bool)
  | utteranceDone
  | cancelNotice
  | timer (t : Timer)
  | recognitionResult (id : Nat) (alts : List Alternative)
  | recognitionEnd (id : Nat)
  | recognitionError (id : Nat) (code : String)

/-- One event. `utteranceDone` is the end or error event of the utterance the
engine is playing (both handlers schedule `processVoiceQueue`), `cancelNotice` the
event of a cancelled utterance; the events of a recognition object need it to be
started. The result is `none` when the event cannot occur in the state. -/
def step (e : Event) (w : World) : Option World :=
  match e with
  | Event.speak text priority => some (speak text priority w)
  | Event.setVoiceEnabled enabled => some (setVoiceEnabled enabled w)
  | Event.initSpeechRecognition tag =>
    some (initSpeechRecognition
      (match tag with
       | none => RecogCallback.absent
       | some n => RecogCallback.caller n) w)
  | Event.startListening => some (startListening w)
  | Event.stopListening => some (stopListening w)
  | Event.enableAutoRecognition => some (enableAutoRecognition w)
  | Event.disableAutoRecognition => some (disableAutoRecognition w)
  | Event.readTopDestinations d => some (readTopDestinations d w)
  | Event.confirmDestinations d hasCallback => some (confirmDestinations d hasCallback w)
  | Event.utteranceDone =>
    match w.active with
    | [] => none
    | _ :: rest =>
      some { w with active := rest, timers := w.timers ++ [Timer.processVoiceQueue] }
  | Event.cancelNotice =>
    if w.cancelled = 0 then none
    else some { w with
      cancelled := w.cancelled - 1
      timers := w.timers ++ [Timer.processVoiceQueue] }
  | Event.timer t =>
    if t ∈ w.timers then some (fireTimer t { w with timers := w.timers.erase t })
    else none
  | Event.recognitionResult id alts =>
    match w.recogs[id]? with
    | none => none
    | some r => if r.started then some (onresult r.callback alts w) else none
  | Event.recognitionEnd id =>
    match w.recogs[id]? with
    | none => none
    | some r =>
      if r.started then
        some (onend { w with recogs := w.recogs.set id { r with started := false } })
      else none
  | Event.recognitionError id code =>
    match w.recogs[id]? with
    | none => none
    | some r => if r.started then some (onerror code w) else none

/-- A sequence of events, in order. -/
def runEvents : List Event → World → Option World
  | [], w => some w
  | e :: es, w => (step e w).bind (runEvents es)

/-- The user answers the prompt that is being asked: the session that
`this.recognition` refers to reports the transcript as its only alternative. -/
def answerPrompt (transcript : String) (w : World) : Option World :=
  match w.svc.recognition with
  | none => none
  | some id =>
    step (Event.recognitionResult id [{ transcript := transcript, confidence := none }]) w

/-- The successive prompts are answered with the given transcripts. -/
def answerPrompts : List String → World → Option World
  | [], w => some w
  | t :: ts, w => (answerPrompt t w).bind (answerPrompts ts)

/-! ## Views of the log -/

/-- The speak requests of a log, in order. -/
def speakRequests (log : List Obs) : List (String × Priority) :=
  log.filterMap (fun o =>
    match o with
    | Obs.speak text priority => some (text, priority)
    | _ => none)

/-- The arguments of the calls of the selection callback, in order. -/
def selections (log : List Obs) : List (Option String) :=
  log.filterMap (fun o =>
    match o with
    | Obs.selection dest => some dest
    | _ => none)

/-- The recognition objects created, in order. -/
def sessionsCreated (log : List Obs) : List Nat :=
  log.filterMap (fun o =>
    match o with
    | Obs.newRecognition id => some id
    | _ => none)

/-- The calls of `recognition.start()`, in order. -/
def sessionsStarted (log : List Obs) : List Nat :=
  log.filterMap (fun o =>
    match o with
    | Obs.recognitionStart id _ => some id
    | _ => none)

/-- The prompts for the candidates at the indices `first`, ..., `first + count - 1`
of a list, as speak requests: each names the 1-based position and the candidate. -/
def promptRequests (cands : List String) (first count : Nat) : List (String × Priority) :=
  (List.range count).map
    (fun n => (promptText (first + n + 1) (cands.getD (first + n) ""), Priority.normal))

/-- A confirmation session is asking about the candidate under the cursor: the
platform supports recognition, the cursor is inside the working set, and
`this.recognition` is a started session whose callback was built by `askNext`
for that candidate. -/
def Asking (hasCallback : Bool) (w : World) : Prop :=
  w.recognitionSupported = true ∧
  w.svc.currentConfirmationIndex < w.svc.confirmationDestinations.length ∧
  ∃ id, w.svc.recognition = some id ∧
    w.recogs[id]? = some
      { callback := RecogCallback.confirm
          (w.svc.confirmationDestinations.getD w.svc.currentConfirmationIndex "") hasCallback
        started := true }

/-! ## Views of a run of the speech output queue -/

/-- The texts passed to `speak` by the events of a run, in call order. -/
def spokenTexts (es : List Event) : List String :=
  es.filterMap (fun e =>
    match e with
    | Event.speak text _ => some text
    | _ => none)

/-- The events of a run that only speaks at normal priority: such a call of
`speak`, the end or error of the playing utterance, and the 100 ms continuation. -/
def isNormalQueueEvent (e : Event) : Bool :=
  match e with
  | Event.speak _ Priority.normal => true
  | Event.utteranceDone => true
  | Event.timer Timer.processVoiceQueue => true
  | _ => false

/-- The events that the synthesis engine and its continuations raise by
themselves, without any call of a method of the service. -/
def isSynthesisEvent (e : Event) : Bool :=
  match e with
  | Event.utteranceDone => true
  | Event.cancelNotice => true
  | Event.timer Timer.processVoiceQueue => true
  | _ => false

/-- The states of the output queue met when only normal priority is used and the
voice stays enabled: `spoken` is what was handed over followed by what is queued,
and the queue is idle, or playing one utterance, or in the gap before the next. -/
structure FifoInv (spoken : List String) (w : World) : Prop where
  enabled : w.svc.isVoiceEnabled = true
  usable : w.synthesisUsable = true
  texts : spoken = w.handed ++ w.svc.voiceQueue
  noCancel : w.cancelled = 0
  shape :
    (w.svc.isSpeaking = false ∧ w.svc.voiceQueue = [] ∧ w.active = [] ∧ w.timers = []) ∨
    (w.svc.isSpeaking = true ∧ (∃ t, w.active = [t]) ∧ w.timers = []) ∨
    (w.svc.isSpeaking = true ∧ w.active = [] ∧ w.timers = [Timer.processVoiceQueue])

/-- The events of the speech output queue: calls of `speak` at either priority and
of `setVoiceEnabled`, the end or error of the playing utterance, the event of a
cancelled utterance, and the 100 ms continuation. -/
def isOutputQueueEvent (e : Event) : Bool :=
  match e with
  | Event.speak _ _ => true
  | Event.setVoiceEnabled _ => true
  | Event.utteranceDone => true
  | Event.cancelNotice => true
  | Event.timer Timer.processVoiceQueue => true
  | _ => false

/-- The output queue holds one token while `isSpeaking` is set: an utterance in
the engine, or the pending event of a cancelled one, or a pending continuation;
when `isSpeaking` is clear there is none. -/
def OneToken (w : World) : Prop :=
  (w.svc.isSpeaking = false ∧ w.active = [] ∧ w.cancelled = 0 ∧
    w.timers.count Timer.processVoiceQueue = 0) ∨
  (w.svc.isSpeaking = true ∧
    w.active.length + w.cancelled + w.timers.count Timer.processVoiceQueue = 1)

/-- The delay given to `setTimeout` for each continuation, in milliseconds. -/
def Timer.delayMs : Timer → Nat
  | Timer.processVoiceQueue => 100
  | Timer.autoRestart => 500
  | Timer.retry => 2000

/-- How many times `recognition.start()` has succeeded on the object `id`. -/
def startCount (id : Nat) (log : List Obs) : Nat :=
  log.count (Obs.recognitionStart id true)

/-- Whether the recognition object `id` exists and is between `start()` and its end. -/
def isStarted (id : Nat) (w : World) : Bool :=
  match w.recogs[id]? with
  | some r => r.started
  | none => false

/-- A voice reported by `synthesis.getVoices()`: the two properties the code reads. -/
structure Voice where
  name : String
  lang : String
  deriving DecidableEq, Repr

/-- Case folding of one character by a regular expression with the `i` flag and
without the `u` flag, for patterns of ASCII letters: only the ASCII capitals fold
onto ASCII small letters (a character outside ASCII never matches an ASCII one). -/
def asciiFold (c : Char) : Char :=
  if 0x41 ≤ c.toNat ∧ c.toNat ≤ 0x5A then Char.ofNat (c.toNat + 32) else c

/-- `pattern.test(s)` for a literal of ASCII small letters with the `i` flag. -/
def regexTestIgnoreCase (pattern s : String) : Bool :=
  (s.data.map asciiFold).tails.any (fun t => pattern.data.isPrefixOf t)

/-- `/ko/i.test(v.lang)`. -/
def isKoreanVoice (v : Voice) : Bool := regexTestIgnoreCase "ko" v.lang

/-- `/en/i.test(v.lang)`. -/
def isEnglishVoice (v : Voice) : Bool := regexTestIgnoreCase "en" v.lang

/-- The value that `setPreferredVoice()` assigns to `this.preferredVoice`:
`koreanVoice || englishVoice || voices[0]`, `none` standing for `undefined`. -/
def setPreferredVoice (voices : List Voice) : Option Voice :=
  match voices.find? isKoreanVoice with
  | some v => some v
  | none =>
    match voices.find? isEnglishVoice with
    | some v => some v
    | none => voices[0]?

/-! ## MP3 alert queue -/

/-- An element of `mp3Queue` and of `recentlyPlayedMp3`: `{ src, timestamp }`, the
time being a `Date.now()` value in milliseconds. -/
structure Mp3Entry where
  src : String
  timestamp : Nat
  deriving DecidableEq, Repr

/-- The module-level state of the MP3 queue with the platform around it.
* `now`: what `Date.now()` returns;
* `playing`: the `Audio` objects started that have neither ended nor failed;
* `played`: every entry handed to playback, with the time it was started;
* `accepted`: every entry pushed on the play queue, in order;
* `timers`: the pending `setTimeout(playNextMp3, 100)` continuations.
Differences of times use the subtraction of natural numbers, which stops at 0: a
negative difference in the code is below 2000 like 0 is. -/
structure Mp3World where
  mp3Queue : List Mp3Entry
  isMp3Playing : Bool
  recentlyPlayedMp3 : List Mp3Entry
  now : Nat
  playing : List String
  played : List (Mp3Entry × Nat)
  accepted : List Mp3Entry
  timers : Nat
  deriving DecidableEq, Repr

/-- The state when the module is loaded, at clock value `now`. -/
def Mp3World.init (now : Nat) : Mp3World :=
  { mp3Queue := []
    isMp3Playing := false
    recentlyPlayedMp3 := []
    now := now
    playing := []
    played := []
    accepted := []
    timers := 0 }

/-- The purge loop of `playNextMp3`: drop heads older than 2000 ms. -/
def purgeStale (now : Nat) (queue : List Mp3Entry) : List Mp3Entry :=
  queue.dropWhile (fun e => decide (now - e.timestamp > 2000))

/-- `playNextMp3()`. -/
def playNextMp3 (w : Mp3World) : Mp3World :=
  if w.isMp3Playing || w.mp3Queue.length == 0 then w
  else
    match purgeStale w.now w.mp3Queue with
    | [] => { w with mp3Queue := [] }
    | e :: rest =>
      { w with
        mp3Queue := rest
        isMp3Playing := true
        playing := w.playing ++ [e.src]
        played := w.played ++ [(e, w.now)] }

/-- The duplicate test of `enqueueMp3`. -/
def recentlyRequested (src : String) (w : Mp3World) : Bool :=
  w.recentlyPlayedMp3.any (fun item => decide (item.src = src) && decide (w.now - item.timestamp < 2000))

/-- `enqueueMp3(src)`. -/
def enqueueMp3 (src : String) (w : Mp3World) : Mp3World :=
  if recentlyRequested src w then w
  else
    let recent := w.recentlyPlayedMp3 ++ [{ src := src, timestamp := w.now }]
    playNextMp3
      { w with
        recentlyPlayedMp3 := if recent.length > 10 then recent.tail else recent
        mp3Queue := w.mp3Queue ++ [{ src := src, timestamp := w.now }]
        accepted := w.accepted ++ [{ src := src, timestamp := w.now }] }

/-- What happens around the MP3 queue: a call of `enqueueMp3`, the clock moving
on, the `ended` event of a playing clip, the rejection of its `play()` promise, and
a 100 ms continuation running `playNextMp3`. -/
inductive Mp3Event where
  | enqueueMp3 (src : String)
  | advance (ms : Nat)
  | ended (i : Nat)
  | failed (i : Nat)
  | timer
  deriving DecidableEq, Repr

/-- One event; `ended i` and `failed i` concern the `i`-th playing clip and run the
same handler; the result is `none` when the event cannot occur. -/
def mp3Step (e : Mp3Event) (w : Mp3World) : Option Mp3World :=
  match e with
  | Mp3Event.enqueueMp3 src => some (enqueueMp3 src w)
  | Mp3Event.advance ms => some { w with now := w.now + ms }
  | Mp3Event.ended i =>
    if i < w.playing.length then
      some { w with playing := w.playing.eraseIdx i, isMp3Playing := false, timers := w.timers + 1 }
    else none
  | Mp3Event.failed i =>
    if i < w.playing.length then
      some { w with playing := w.playing.eraseIdx i, isMp3Playing := false, timers := w.timers + 1 }
    else none
  | Mp3Event.timer =>
    if w.timers = 0 then none
    else some (playNextMp3 { w with timers := w.timers - 1 })

/-- A sequence of events, in order. -/
def mp3Run : List Mp3Event → Mp3World → Option Mp3World
  | [], w => some w
  | e :: es, w => (mp3Step e w).bind (mp3Run es)

/-- An event that is not a call of `enqueueMp3`. -/
def isNotRequest (e : Mp3Event) : Bool :=
  match e with
  | Mp3Event.enqueueMp3 _ => false
  | _ => true

/-- The flag `isMp3Playing` agrees with the platform: it is set exactly when one
clip is playing, and then there is only that one. -/
def PlayInv (w : Mp3World) : Prop :=
  (w.isMp3Playing = true ∧ ∃ c, w.playing = [c]) ∨ (w.isMp3Playing = false ∧ w.playing = [])

/-- The times kept by the MP3 queue under a clock that never goes back: the play
queue is ordered by enqueue time, no entry or record is later than the clock, and
every clip handed to playback was enqueued at most 2000 ms before it started. -/
structure ClockInv (w : Mp3World) : Prop where
  ordered : w.mp3Queue.Pairwise (fun a b => a.timestamp ≤ b.timestamp)
  queued : ∀ e ∈ w.mp3Queue, e.timestamp ≤ w.now
  recent : ∀ r ∈ w.recentlyPlayedMp3, r.timestamp ≤ w.now
  fresh : ∀ p ∈ w.played, p.1.timestamp ≤ p.2 ∧ p.2 - p.1.timestamp ≤ 2000

end SpeechJs

namespace SpeechJs

/-! ## Frame lemmas for `speak` -/

@[simp] theorem speak_log (t : String) (p : Priority) (w : World) :
    (speak t p w).log = w.log ++ [Obs.speak t p] := by
  unfold speak processVoiceQueue synthesisCancel
  simp only []
  split_ifs <;> first | rfl | (split <;> rfl)

@[simp] theorem speak_recogs (t : String) (p : Priority) (w : World) :
    (speak t p w).recogs = w.recogs := by
  unfold speak processVoiceQueue synthesisCancel
  simp only []
  split_ifs <;> first | rfl | (split <;> rfl)

@[simp] theorem speak_recognitionSupported (t : String) (p : Priority) (w : World) :
    (speak t p w).recognitionSupported = w.recognitionSupported := by
  unfold speak processVoiceQueue synthesisCancel
  simp only []
  split_ifs <;> first | rfl | (split <;> rfl)

@[simp] theorem speak_recognition (t : String) (p : Priority) (w : World) :
    (speak t p w).svc.recognition = w.svc.recognition := by
  unfold speak processVoiceQueue synthesisCancel
  simp only []
  split_ifs <;> first | rfl | (split <;> rfl)

@[simp] theorem speak_confirmationDestinations (t : String) (p : Priority) (w : World) :
    (speak t p w).svc.confirmationDestinations = w.svc.confirmationDestinations := by
  unfold speak processVoiceQueue synthesisCancel
  simp only []
  split_ifs <;> first | rfl | (split <;> rfl)

@[simp] theorem speak_currentConfirmationIndex (t : String) (p : Priority) (w : World) :
    (speak t p w).svc.currentConfirmationIndex = w.svc.currentConfirmationIndex := by
  unfold speak processVoiceQueue synthesisCancel
  simp only []
  split_ifs <;> first | rfl | (split <;> rfl)

/-! ## The steps of the confirmation dialog -/

theorem getElem?_length_append_singleton {α : Type} (l : List α) (a : α) :
    (l ++ [a])[l.length]? = some a := by
  simp

/-- Asking about a candidate inside the working set: one prompt, one fresh session, started. -/
theorem askNext_inside (h : Bool) (w : World) (hs : w.recognitionSupported = true)
    (hi : w.svc.currentConfirmationIndex < w.svc.confirmationDestinations.length) :
    Asking h (askNext h w) ∧
    (askNext h w).svc.currentConfirmationIndex = w.svc.currentConfirmationIndex ∧
    (askNext h w).svc.confirmationDestinations = w.svc.confirmationDestinations ∧
    (askNext h w).log = w.log ++
      [Obs.speak (promptText (w.svc.currentConfirmationIndex + 1)
          (w.svc.confirmationDestinations.getD w.svc.currentConfirmationIndex ""))
          Priority.normal,
       Obs.newRecognition w.recogs.length,
       Obs.recognitionStart w.recogs.length true] ∧
    (askNext h w).recogs.length = w.recogs.length + 1 := by
  have hnot : ¬ (w.svc.currentConfirmationIndex ≥ w.svc.confirmationDestinations.length) :=
    not_le.mpr hi
  unfold askNext
  rw [if_neg hnot]
  simp only [initSpeechRecognition, speak_recognitionSupported, hs, Bool.not_true,
    Bool.false_eq_true, if_false, speak_recogs, speak_log]
  unfold startListening
  simp only [getElem?_length_append_singleton, Bool.false_eq_true, if_false]
  refine ⟨⟨?_, ?_, ?_⟩, ?_, ?_, ?_, ?_⟩
  · simp [hs]
  · simpa using hi
  · refine ⟨w.recogs.length, by simp, ?_⟩
    simp
  · simp
  · simp
  · simp
  · simp

/-- Asking with the cursor past the working set: the closing message at high
priority, then the callback with none; no session is created. -/
theorem askNext_exhausted (h : Bool) (w : World)
    (hi : w.svc.confirmationDestinations.length ≤ w.svc.currentConfirmationIndex) :
    askNext h w = callSelection h none (speak notSelectedText Priority.high w) := by
  unfold askNext
  rw [if_pos hi]

theorem speakRequests_append (l l2 : List Obs) :
    speakRequests (l ++ l2) = speakRequests l ++ speakRequests l2 := by
  simp [speakRequests, List.filterMap_append]

theorem selections_append (l l2 : List Obs) :
    selections (l ++ l2) = selections l ++ selections l2 := by
  simp [selections, List.filterMap_append]

theorem sessionsCreated_append (l l2 : List Obs) :
    sessionsCreated (l ++ l2) = sessionsCreated l ++ sessionsCreated l2 := by
  simp [sessionsCreated, List.filterMap_append]

theorem sessionsStarted_append (l l2 : List Obs) :
    sessionsStarted (l ++ l2) = sessionsStarted l ++ sessionsStarted l2 := by
  simp [sessionsStarted, List.filterMap_append]

@[simp] theorem callSelection_log (h : Bool) (d : Option String) (w : World) :
    (callSelection h d w).log = w.log ++ (if h then [Obs.selection d] else []) := by
  unfold callSelection
  cases h <;> simp

@[simp] theorem callSelection_svc (h : Bool) (d : Option String) (w : World) :
    (callSelection h d w).svc = w.svc := by
  unfold callSelection
  cases h <;> simp

@[simp] theorem callSelection_recogs (h : Bool) (d : Option String) (w : World) :
    (callSelection h d w).recogs = w.recogs := by
  unfold callSelection
  cases h <;> simp

/-- While a session is asking, an answer reaches the callback that `askNext`
built for the candidate under the cursor. -/
theorem answerPrompt_asking (h : Bool) (w : World) (t : String) (ha : Asking h w) :
    answerPrompt t w = some (confirmCallback
      (w.svc.confirmationDestinations.getD w.svc.currentConfirmationIndex "") h t w) := by
  obtain ⟨_, _, id, hid, hr⟩ := ha
  unfold answerPrompt
  rw [hid]
  simp [step, hr, onresult, bestTranscript, invokeCallback]

/-- An affirmative answer: the acknowledgement, then the callback with the candidate. -/
theorem confirmCallback_positive (dest : String) (h : Bool) (t : String) (w : World)
    (hp : isPositive (normalizeAnswer t) = true) :
    confirmCallback dest h t w =
      callSelection h (some dest) (speak selectedText Priority.normal w) := by
  unfold confirmCallback
  simp [hp]

/-- A negative answer: the cursor advances and the next candidate is asked. -/
theorem confirmCallback_negative (dest : String) (h : Bool) (t : String) (w : World)
    (hp : isPositive (normalizeAnswer t) = false)
    (hn : isNegative (normalizeAnswer t) = true) :
    confirmCallback dest h t w =
      askNext h { w with svc := { w.svc with
        currentConfirmationIndex := w.svc.currentConfirmationIndex + 1 } } := by
  unfold confirmCallback
  simp [hp, hn]

/-- An answer matching neither pattern set: the clarification, then the same question. -/
theorem confirmCallback_unrecognized (dest : String) (h : Bool) (t : String) (w : World)
    (hp : isPositive (normalizeAnswer t) = false)
    (hn : isNegative (normalizeAnswer t) = false) :
    confirmCallback dest h t w =
      askNext h (speak (clarifyText (normalizeAnswer t)) Priority.normal w) := by
  unfold confirmCallback
  simp [hp, hn]

/-- A negative answer with a further candidate in the working set. -/
theorem answer_negative_inside (h : Bool) (w : World) (t : String) (ha : Asking h w)
    (hp : isPositive (normalizeAnswer t) = false)
    (hn : isNegative (normalizeAnswer t) = true)
    (hi : w.svc.currentConfirmationIndex + 1 < w.svc.confirmationDestinations.length) :
    ∃ w2, answerPrompt t w = some w2 ∧ Asking h w2 ∧
      w2.svc.currentConfirmationIndex = w.svc.currentConfirmationIndex + 1 ∧
      w2.svc.confirmationDestinations = w.svc.confirmationDestinations ∧
      w2.log = w.log ++
        [Obs.speak (promptText (w.svc.currentConfirmationIndex + 1 + 1)
            (w.svc.confirmationDestinations.getD (w.svc.currentConfirmationIndex + 1) ""))
            Priority.normal,
         Obs.newRecognition w.recogs.length,
         Obs.recognitionStart w.recogs.length true] ∧
      w2.recogs.length = w.recogs.length + 1 := by
  refine ⟨_, answerPrompt_asking h w t ha, ?_⟩
  rw [confirmCallback_negative _ _ _ _ hp hn]
  exact askNext_inside h _ ha.1 hi

/-- A negative answer about the last candidate of the working set. -/
theorem answer_negative_last (h : Bool) (w : World) (t : String) (ha : Asking h w)
    (hp : isPositive (normalizeAnswer t) = false)
    (hn : isNegative (normalizeAnswer t) = true)
    (hi : w.svc.currentConfirmationIndex + 1 = w.svc.confirmationDestinations.length) :
    ∃ w2, answerPrompt t w = some w2 ∧
      w2.log = w.log ++ [Obs.speak notSelectedText Priority.high] ++
        (if h then [Obs.selection none] else []) ∧
      w2.recogs = w.recogs ∧
      w2.svc.confirmationDestinations = w.svc.confirmationDestinations := by
  refine ⟨_, answerPrompt_asking h w t ha, ?_⟩
  rw [confirmCallback_negative _ _ _ _ hp hn, askNext_exhausted _ _ (by simp [hi])]
  simp

/-- An affirmative answer. -/
theorem answer_positive (h : Bool) (w : World) (t : String) (ha : Asking h w)
    (hp : isPositive (normalizeAnswer t) = true) :
    ∃ w2, answerPrompt t w = some w2 ∧
      w2.log = w.log ++ [Obs.speak selectedText Priority.normal] ++
        (if h then [Obs.selection (some
          (w.svc.confirmationDestinations.getD w.svc.currentConfirmationIndex ""))] else []) ∧
      w2.recogs = w.recogs ∧
      w2.svc.currentConfirmationIndex = w.svc.currentConfirmationIndex ∧
      w2.svc.confirmationDestinations = w.svc.confirmationDestinations := by
  refine ⟨_, answerPrompt_asking h w t ha, ?_⟩
  rw [confirmCallback_positive _ _ _ _ hp]
  simp

/-- An answer that matches neither pattern set. -/
theorem answer_unrecognized (h : Bool) (w : World) (t : String) (ha : Asking h w)
    (hp : isPositive (normalizeAnswer t) = false)
    (hn : isNegative (normalizeAnswer t) = false) :
    ∃ w2, answerPrompt t w = some w2 ∧ Asking h w2 ∧
      w2.svc.currentConfirmationIndex = w.svc.currentConfirmationIndex ∧
      w2.svc.confirmationDestinations = w.svc.confirmationDestinations ∧
      w2.log = w.log ++
        [Obs.speak (clarifyText (normalizeAnswer t)) Priority.normal,
         Obs.speak (promptText (w.svc.currentConfirmationIndex + 1)
            (w.svc.confirmationDestinations.getD w.svc.currentConfirmationIndex ""))
            Priority.normal,
         Obs.newRecognition w.recogs.length,
         Obs.recognitionStart w.recogs.length true] ∧
      w2.recogs.length = w.recogs.length + 1 := by
  refine ⟨_, answerPrompt_asking h w t ha, ?_⟩
  rw [confirmCallback_unrecognized _ _ _ _ hp hn]
  have key := askNext_inside h (speak (clarifyText (normalizeAnswer t)) Priority.normal w)
    (by simpa using ha.1) (by simpa using ha.2.1)
  simpa using key

/-- The first prompt of `confirmDestinations` on a non-empty array. -/
theorem confirmDestinations_inside (h : Bool) (w : World) (cands : List String)
    (hs : w.recognitionSupported = true) (hc : cands ≠ []) :
    Asking h (confirmDestinations (Destinations.array cands) h w) ∧
    (confirmDestinations (Destinations.array cands) h w).svc.currentConfirmationIndex = 0 ∧
    (confirmDestinations (Destinations.array cands) h w).svc.confirmationDestinations
      = cands.take 3 ∧
    (confirmDestinations (Destinations.array cands) h w).log = w.log ++
      [Obs.speak (promptText 1 (cands.getD 0 "")) Priority.normal,
       Obs.newRecognition w.recogs.length,
       Obs.recognitionStart w.recogs.length true] ∧
    (confirmDestinations (Destinations.array cands) h w).recogs.length
      = w.recogs.length + 1 := by
  cases cands with
  | nil => exact absurd rfl hc
  | cons d ds =>
    unfold confirmDestinations
    have key := askNext_inside h
      { w with svc := { w.svc with
          confirmationDestinations := (d :: ds).take 3
          currentConfirmationIndex := 0 } } hs (by simp)
    simpa using key

theorem promptRequests_zero (cands : List String) (first : Nat) :
    promptRequests cands first 0 = [] := by
  simp [promptRequests]

theorem promptRequests_succ (cands : List String) (first n : Nat) :
    promptRequests cands first (n + 1) =
      (promptText (first + 1) (cands.getD first ""), Priority.normal) ::
        promptRequests cands (first + 1) n := by
  unfold promptRequests
  rw [List.range_succ_eq_map]
  simp only [List.map_cons, List.map_map, Nat.add_zero]
  congr 1
  apply List.map_congr_left
  intro a _
  simp only [Function.comp, Nat.succ_eq_add_one]
  rw [show first + (a + 1) = first + 1 + a by omega]

theorem promptRequests_snoc (cands : List String) (first n : Nat) :
    promptRequests cands first (n + 1) =
      promptRequests cands first n ++
        [(promptText (first + n + 1) (cands.getD (first + n) ""), Priority.normal)] := by
  unfold promptRequests
  rw [List.range_succ, List.map_append]
  rfl

/-- A run of negative answers that stays inside the working set: the cursor
advances by one per answer and each answer is followed by the prompt for the next
candidate; the callback is not called. -/
theorem answer_negatives (h : Bool) (negs : List String) :
    ∀ w : World, Asking h w →
      (∀ t ∈ negs, isPositive (normalizeAnswer t) = false ∧
        isNegative (normalizeAnswer t) = true) →
      w.svc.currentConfirmationIndex + negs.length < w.svc.confirmationDestinations.length →
      ∃ w2, answerPrompts negs w = some w2 ∧ Asking h w2 ∧
        w2.svc.currentConfirmationIndex = w.svc.currentConfirmationIndex + negs.length ∧
        w2.svc.confirmationDestinations = w.svc.confirmationDestinations ∧
        speakRequests w2.log = speakRequests w.log ++
          promptRequests w.svc.confirmationDestinations
            (w.svc.currentConfirmationIndex + 1) negs.length ∧
        selections w2.log = selections w.log ∧
        sessionsCreated w2.log = sessionsCreated w.log ++
          (List.range negs.length).map (fun n => w.recogs.length + n) ∧
        w2.recogs.length = w.recogs.length + negs.length := by
  induction negs with
  | nil =>
    intro w ha _ _
    exact ⟨w, rfl, ha, by simp, rfl, by simp [promptRequests_zero], rfl, by simp, by simp⟩
  | cons t ts ih =>
    intro w ha hneg hi
    have ht := hneg t (List.mem_cons_self _ _)
    simp only [List.length_cons] at hi
    obtain ⟨w1, h1, ha1, hidx1, hconf1, hlog1⟩ :=
      answer_negative_inside h w t ha ht.1 ht.2 (by omega)
    obtain ⟨w2, h2, ha2, hidx2, hconf2, hsp2, hsel2, hcr2, hrec2⟩ :=
      ih w1 ha1 (fun u hu => hneg u (List.mem_cons_of_mem _ hu)) (by rw [hidx1, hconf1]; omega)
    refine ⟨w2, ?_, ha2, ?_, ?_, ?_, ?_, ?_, ?_⟩
    · simp [answerPrompts, h1, h2]
    · rw [hidx2, hidx1, List.length_cons]; omega
    · rw [hconf2, hconf1]
    · rw [hsp2, hlog1.1, speakRequests_append, hconf1, hidx1, List.length_cons,
        promptRequests_succ]
      simp [speakRequests]
    · rw [hsel2, hlog1.1, selections_append]
      simp [selections]
    · rw [hcr2, hlog1.1, sessionsCreated_append, hlog1.2, List.length_cons,
        List.range_succ_eq_map]
      simp [sessionsCreated, Function.comp, Nat.add_assoc, Nat.add_comm 1]
    · rw [hrec2, hlog1.2, List.length_cons]; omega

theorem answerPrompts_append (ts us : List String) :
    ∀ w : World, answerPrompts (ts ++ us) w = (answerPrompts ts w).bind (answerPrompts us) := by
  induction ts with
  | nil => intro w; simp [answerPrompts]
  | cons t ts ih =>
    intro w
    simp only [List.cons_append, answerPrompts]
    cases answerPrompt t w with
    | none => rfl
    | some w1 => simpa using ih w1

theorem getD_take_three (cands : List String) (i : Nat) (hi : i < (cands.take 3).length) :
    (cands.take 3).getD i "" = cands.getD i "" := by
  have h3 : i < 3 := by
    have := List.length_take_le 3 cands
    omega
  simp [List.getD_eq_getElem?_getD, List.getElem?_take, h3]

theorem promptRequests_take_three (cands : List String) (first count : Nat)
    (hi : first + count ≤ (cands.take 3).length) :
    promptRequests (cands.take 3) first count = promptRequests cands first count := by
  unfold promptRequests
  apply List.map_congr_left
  intro n hn
  rw [List.mem_range] at hn
  rw [getD_take_three cands (first + n) (by omega)]

/-- C1: for every candidate list and every k such that the working set (the first
three candidates) has more than k entries, when the successive prompts of
`confirmDestinations` are answered by k negative answers followed by one
affirmative answer, the selection callback is called exactly once, with the
candidate at index k; the speak requests are exactly the prompts for the candidates
0..k followed by the acknowledgement, so no candidate after index k is prompted;
exactly k+1 recognition sessions are created and the cursor stops at k. -/
theorem confirmDestinations_selects_after_negatives
    (w0 : World) (cands : List String) (k : Nat) (negs : List String) (yes : String)
    (hs : w0.recognitionSupported = true)
    (hk : k < (cands.take 3).length)
    (hlen : negs.length = k)
    (hneg : ∀ t ∈ negs, isPositive (normalizeAnswer t) = false ∧
      isNegative (normalizeAnswer t) = true)
    (hyes : isPositive (normalizeAnswer yes) = true) :
    ∃ w c, answerPrompts (negs ++ [yes])
        (confirmDestinations (Destinations.array cands) true w0) = some w ∧
      cands[k]? = some c ∧ k ≤ 2 ∧
      selections w.log = selections w0.log ++ [some c] ∧
      speakRequests w.log = speakRequests w0.log ++ promptRequests cands 0 (k + 1) ++
        [(selectedText, Priority.normal)] ∧
      sessionsCreated w.log = sessionsCreated w0.log ++
        (List.range (k + 1)).map (fun n => w0.recogs.length + n) ∧
      w.svc.currentConfirmationIndex = k := by
  have hc : cands ≠ [] := by
    intro h0
    simp [h0] at hk
  have hk3 : k < 3 := by
    have := List.length_take_le 3 cands
    omega
  have hkc : k < cands.length := by
    have := List.length_take_le' 3 cands
    omega
  obtain ⟨ha1, hidx1, hconf1, hlog1, hrec1⟩ := confirmDestinations_inside true w0 cands hs hc
  obtain ⟨w2, h2, ha2, hidx2, hconf2, hsp2, hsel2, hcr2, hrec2⟩ :=
    answer_negatives true negs _ ha1 hneg (by rw [hidx1, hconf1, hlen]; omega)
  obtain ⟨w3, h3, hlog3, hrec3, hidx3, hconf3⟩ := answer_positive true w2 yes ha2 hyes
  refine ⟨w3, cands[k], ?_, ?_, by omega, ?_, ?_, ?_, ?_⟩
  · rw [answerPrompts_append, h2]
    simp [answerPrompts, h3]
  · simp [hkc]
  · rw [hlog3, selections_append, selections_append, hsel2, hlog1, selections_append,
      hidx2, hconf2, hconf1, hidx1, hlen, Nat.zero_add, getD_take_three cands k hk]
    simp [selections, List.getD_eq_getElem?_getD, hkc]
  · rw [hlog3, speakRequests_append, speakRequests_append, hsp2, hlog1, speakRequests_append,
      hconf1, hidx1, hlen, promptRequests_take_three cands (0 + 1) k (by omega),
      promptRequests_succ]
    simp [speakRequests]
  · rw [hlog3, sessionsCreated_append, sessionsCreated_append, hcr2, hlog1,
      sessionsCreated_append, hrec1, hlen, List.range_succ_eq_map]
    simp [sessionsCreated, Function.comp, Nat.add_assoc, Nat.add_comm 1]
  · rw [hidx3, hidx2, hidx1, hlen]; omega

/-- Witness for C1: candidates X, Y, Z, a negative answer then an affirmative one. -/
theorem confirmDestinations_selects_after_negatives_witness :
    (World.init true true).recognitionSupported = true ∧
    1 < (["X", "Y", "Z"].take 3).length ∧
    (∀ t ∈ ["아니오"], isPositive (normalizeAnswer t) = false ∧
      isNegative (normalizeAnswer t) = true) ∧
    isPositive (normalizeAnswer " Yes ") = true ∧
    ∃ w c, answerPrompts (["아니오"] ++ [" Yes "])
        (confirmDestinations (Destinations.array ["X", "Y", "Z"]) true
          (World.init true true)) = some w ∧
      ["X", "Y", "Z"][1]? = some c ∧ 1 ≤ 2 ∧
      selections w.log = selections (World.init true true).log ++ [some c] ∧
      speakRequests w.log = speakRequests (World.init true true).log ++
        promptRequests ["X", "Y", "Z"] 0 (1 + 1) ++ [(selectedText, Priority.normal)] ∧
      sessionsCreated w.log = sessionsCreated (World.init true true).log ++
        (List.range (1 + 1)).map (fun n => (World.init true true).recogs.length + n) ∧
      w.svc.currentConfirmationIndex = 1 :=
  ⟨rfl, by decide, by decide, by decide,
    confirmDestinations_selects_after_negatives (World.init true true) ["X", "Y", "Z"] 1
      ["아니오"] " Yes " rfl (by decide) rfl (by decide) (by decide)⟩

/-- C2: when the `destinations` argument is not an array or is an empty array,
`confirmDestinations` calls the selection callback exactly once, with none, and does
nothing else: no speak request, no recognition object created, no session started,
and every field of the service (in particular `confirmationDestinations` and
`currentConfirmationIndex`) and of the platform is as before. -/
theorem confirmDestinations_rejects_bad_argument (w : World) (d : Destinations)
    (hd : d = Destinations.notArray ∨ d = Destinations.array []) :
    confirmDestinations d true w = { w with log := w.log ++ [Obs.selection none] } ∧
    selections (confirmDestinations d true w).log = selections w.log ++ [none] ∧
    speakRequests (confirmDestinations d true w).log = speakRequests w.log ∧
    sessionsCreated (confirmDestinations d true w).log = sessionsCreated w.log ∧
    sessionsStarted (confirmDestinations d true w).log = sessionsStarted w.log ∧
    (confirmDestinations d true w).recogs = w.recogs ∧
    (confirmDestinations d true w).svc = w.svc := by
  have key : confirmDestinations d true w = { w with log := w.log ++ [Obs.selection none] } := by
    rcases hd with hd | hd <;> subst hd <;> rfl
  rw [key]
  refine ⟨rfl, ?_, ?_, ?_, ?_, rfl, rfl⟩
  · simp [selections_append, selections]
  · simp [speakRequests_append, speakRequests]
  · simp [sessionsCreated_append, sessionsCreated]
  · simp [sessionsStarted_append, sessionsStarted]

/-- Witness for C2: the empty array on a fresh service. -/
theorem confirmDestinations_rejects_bad_argument_witness :
    (Destinations.array [] = Destinations.notArray ∨
      Destinations.array [] = Destinations.array []) ∧
    selections (confirmDestinations (Destinations.array []) true
      (World.init true true)).log = [none] ∧
    sessionsStarted (confirmDestinations (Destinations.array []) true
      (World.init true true)).log = [] :=
  ⟨Or.inr rfl,
    (confirmDestinations_rejects_bad_argument (World.init true true) (Destinations.array [])
      (Or.inr rfl)).2.1,
    (confirmDestinations_rejects_bad_argument (World.init true true) (Destinations.array [])
      (Or.inr rfl)).2.2.2.2.1⟩

/-- A clarification request is never a prompt: they differ in their first character. -/
theorem clarifyText_ne_promptText (a : String) (n : Nat) (d : String) :
    clarifyText a ≠ promptText n d := by
  intro h
  have hd := congrArg (fun s : String => s.data.head?) h
  simp [clarifyText, promptText, String.data_append] at hd

/-- A run of answers that match neither pattern set: the cursor and the working
set stay as they are, the callback is not called, and each answer is followed by
the clarification and by the prompt for the same candidate. -/
theorem answer_unrecognized_run (h : Bool) (ts : List String) :
    ∀ w : World, Asking h w →
      (∀ t ∈ ts, isPositive (normalizeAnswer t) = false ∧
        isNegative (normalizeAnswer t) = false) →
      ∃ w2, answerPrompts ts w = some w2 ∧ Asking h w2 ∧
        w2.svc.currentConfirmationIndex = w.svc.currentConfirmationIndex ∧
        w2.svc.confirmationDestinations = w.svc.confirmationDestinations ∧
        selections w2.log = selections w.log ∧
        speakRequests w2.log = speakRequests w.log ++
          ts.flatMap (fun t =>
            [(clarifyText (normalizeAnswer t), Priority.normal),
             (promptText (w.svc.currentConfirmationIndex + 1)
                (w.svc.confirmationDestinations.getD w.svc.currentConfirmationIndex ""),
              Priority.normal)]) := by
  induction ts with
  | nil =>
    intro w ha _
    exact ⟨w, rfl, ha, rfl, rfl, rfl, by simp⟩
  | cons t ts ih =>
    intro w ha hun
    have ht := hun t (List.mem_cons_self _ _)
    obtain ⟨w1, h1, ha1, hidx1, hconf1, hlog1, _⟩ := answer_unrecognized h w t ha ht.1 ht.2
    obtain ⟨w2, h2, ha2, hidx2, hconf2, hsel2, hsp2⟩ :=
      ih w1 ha1 (fun u hu => hun u (List.mem_cons_of_mem _ hu))
    refine ⟨w2, ?_, ha2, ?_, ?_, ?_, ?_⟩
    · simp [answerPrompts, h1, h2]
    · rw [hidx2, hidx1]
    · rw [hconf2, hconf1]
    · rw [hsel2, hlog1, selections_append]
      simp [selections]
    · rw [hsp2, hlog1, speakRequests_append, hidx1, hconf1]
      simp [speakRequests]

theorem count_prompt_flatMap (p : String × Priority) (ts : List String)
    (hne : ∀ t, (clarifyText (normalizeAnswer t), Priority.normal) ≠ p) :
    List.count p (ts.flatMap (fun t =>
      [(clarifyText (normalizeAnswer t), Priority.normal), p])) = ts.length := by
  induction ts with
  | nil => simp
  | cons t ts ih =>
    simp only [List.flatMap_cons, List.count_append, ih, List.length_cons]
    rw [List.count_cons_of_ne (hne t).symm, List.count_cons_self]
    simp
    omega

/-- C3: in a confirmation session, an answer to the prompt for candidate i that
matches neither the affirmative nor the negative patterns leaves
`currentConfirmationIndex` at i, does not call the selection callback, and is
followed by exactly two speak requests at normal priority: a clarification request
and then the prompt for the same candidate i. Consequently, after n such answers to
`confirmDestinations([x], cb)` the prompt for x has been requested n+1 times and cb
has not been called. -/
theorem unrecognized_answer_asks_same_candidate :
    (∀ (w : World) (t : String), Asking true w →
      isPositive (normalizeAnswer t) = false → isNegative (normalizeAnswer t) = false →
      ∃ (w2 : World) (echo : String), answerPrompt t w = some w2 ∧ Asking true w2 ∧
        w2.svc.currentConfirmationIndex = w.svc.currentConfirmationIndex ∧
        w2.svc.confirmationDestinations = w.svc.confirmationDestinations ∧
        selections w2.log = selections w.log ∧
        speakRequests w2.log = speakRequests w.log ++
          [(clarifyText echo, Priority.normal),
           (promptText (w.svc.currentConfirmationIndex + 1)
              (w.svc.confirmationDestinations.getD w.svc.currentConfirmationIndex ""),
            Priority.normal)]) ∧
    (∀ (w0 : World) (x : String) (ts : List String), w0.recognitionSupported = true →
      (∀ t ∈ ts, isPositive (normalizeAnswer t) = false ∧
        isNegative (normalizeAnswer t) = false) →
      ∃ w, answerPrompts ts (confirmDestinations (Destinations.array [x]) true w0) = some w ∧
        List.count (promptText 1 x, Priority.normal) (speakRequests w.log) =
          List.count (promptText 1 x, Priority.normal) (speakRequests w0.log)
            + (ts.length + 1) ∧
        selections w.log = selections w0.log ∧
        w.svc.currentConfirmationIndex = 0) := by
  constructor
  · intro w t ha hp hn
    obtain ⟨w1, h1, ha1, hidx1, hconf1, hlog1, _⟩ := answer_unrecognized true w t ha hp hn
    refine ⟨w1, normalizeAnswer t, h1, ha1, hidx1, hconf1, ?_, ?_⟩
    · rw [hlog1, selections_append]
      simp [selections]
    · rw [hlog1, speakRequests_append]
      simp [speakRequests]
  · intro w0 x ts hs hun
    obtain ⟨ha1, hidx1, hconf1, hlog1, _⟩ :=
      confirmDestinations_inside true w0 [x] hs (by simp)
    obtain ⟨w2, h2, _, hidx2, _, hsel2, hsp2⟩ := answer_unrecognized_run true ts _ ha1 hun
    refine ⟨w2, h2, ?_, ?_, ?_⟩
    · rw [hsp2, hlog1, speakRequests_append, hidx1, hconf1]
      have hne : ∀ t, (clarifyText (normalizeAnswer t), Priority.normal)
          ≠ (promptText 1 x, Priority.normal) := by
        intro t h
        exact clarifyText_ne_promptText _ _ _ (congrArg Prod.fst h)
      have hc := count_prompt_flatMap (promptText 1 x, Priority.normal) ts hne
      simp only [List.count_append, speakRequests, List.filterMap_cons, List.filterMap_nil,
        List.take, List.getD_cons_zero, Nat.zero_add, hc]
      simp
      omega
    · rw [hsel2, hlog1, selections_append]
      simp [selections]
    · rw [hidx2, hidx1]

/-- Witness for C3: five unrecognized answers to the single candidate X. -/
theorem unrecognized_answer_asks_same_candidate_witness :
    (Asking true (confirmDestinations (Destinations.array ["X"]) true (World.init true true)) ∧
      isPositive (normalizeAnswer "Hmm") = false ∧
      isNegative (normalizeAnswer "Hmm") = false ∧
      ∃ (w2 : World) (echo : String), answerPrompt "Hmm"
          (confirmDestinations (Destinations.array ["X"]) true (World.init true true))
            = some w2 ∧
        Asking true w2 ∧
        w2.svc.currentConfirmationIndex =
          (confirmDestinations (Destinations.array ["X"]) true
            (World.init true true)).svc.currentConfirmationIndex ∧
        w2.svc.confirmationDestinations =
          (confirmDestinations (Destinations.array ["X"]) true
            (World.init true true)).svc.confirmationDestinations ∧
        selections w2.log = selections (confirmDestinations (Destinations.array ["X"]) true
          (World.init true true)).log ∧
        speakRequests w2.log = speakRequests (confirmDestinations (Destinations.array ["X"])
            true (World.init true true)).log ++
          [(clarifyText echo, Priority.normal),
           (promptText ((confirmDestinations (Destinations.array ["X"]) true
              (World.init true true)).svc.currentConfirmationIndex + 1)
              ((confirmDestinations (Destinations.array ["X"]) true
                (World.init true true)).svc.confirmationDestinations.getD
                  (confirmDestinations (Destinations.array ["X"]) true
                    (World.init true true)).svc.currentConfirmationIndex ""),
            Priority.normal)]) ∧
    ((World.init true true).recognitionSupported = true ∧
      (∀ t ∈ ["Hmm", "음", "what", "어", "maybe"],
        isPositive (normalizeAnswer t) = false ∧ isNegative (normalizeAnswer t) = false) ∧
      ∃ w, answerPrompts ["Hmm", "음", "what", "어", "maybe"]
          (confirmDestinations (Destinations.array ["X"]) true (World.init true true))
            = some w ∧
        List.count (promptText 1 "X", Priority.normal) (speakRequests w.log) =
          List.count (promptText 1 "X", Priority.normal)
            (speakRequests (World.init true true).log)
            + (["Hmm", "음", "what", "어", "maybe"].length + 1) ∧
        selections w.log = selections (World.init true true).log ∧
        w.svc.currentConfirmationIndex = 0) :=
  ⟨⟨(confirmDestinations_inside true (World.init true true) ["X"] rfl (by simp)).1,
      by decide, by decide,
      unrecognized_answer_asks_same_candidate.1
        (confirmDestinations (Destinations.array ["X"]) true (World.init true true)) "Hmm"
        (confirmDestinations_inside true (World.init true true) ["X"] rfl (by simp)).1
        (by decide) (by decide)⟩,
    ⟨rfl, by decide,
      unrecognized_answer_asks_same_candidate.2 (World.init true true) "X"
        ["Hmm", "음", "what", "어", "maybe"] rfl (by decide)⟩⟩

/-- C4: for every non-empty candidate list of length n, when every answer is
negative exactly min(n, 3) candidates are prompted, in list order from the first
(the speak requests are exactly their prompts), then the message that no
destination was selected is requested at high priority and the selection callback
is called exactly once, with none; min(n, 3) recognition sessions are created, so a
candidate at index 3 or beyond is neither prompted nor returned. -/
theorem confirmDestinations_all_negative
    (w0 : World) (cands : List String) (negs : List String)
    (hs : w0.recognitionSupported = true)
    (hc : cands ≠ [])
    (hlen : negs.length = min cands.length 3)
    (hneg : ∀ t ∈ negs, isPositive (normalizeAnswer t) = false ∧
      isNegative (normalizeAnswer t) = true) :
    ∃ w, answerPrompts negs (confirmDestinations (Destinations.array cands) true w0) = some w ∧
      speakRequests w.log = speakRequests w0.log ++
        promptRequests cands 0 (min cands.length 3) ++ [(notSelectedText, Priority.high)] ∧
      selections w.log = selections w0.log ++ [none] ∧
      sessionsCreated w.log = sessionsCreated w0.log ++
        (List.range (min cands.length 3)).map (fun n => w0.recogs.length + n) ∧
      w.svc.confirmationDestinations = cands.take 3 := by
  have hpos : 0 < cands.length := List.length_pos.mpr hc
  have htake : (cands.take 3).length = min cands.length 3 := by
    rw [List.length_take, Nat.min_comm]
  have hne : negs ≠ [] := by
    intro h0
    rw [h0] at hlen
    simp at hlen
    omega
  obtain ⟨front, last, hsplit⟩ : ∃ front last, negs = front ++ [last] :=
    ⟨negs.dropLast, negs.getLast hne, (List.dropLast_append_getLast hne).symm⟩
  subst hsplit
  have hfl : front.length + 1 = min cands.length 3 := by
    simpa using hlen
  obtain ⟨ha1, hidx1, hconf1, hlog1, hrec1⟩ := confirmDestinations_inside true w0 cands hs hc
  obtain ⟨w2, h2, ha2, hidx2, hconf2, hsp2, hsel2, hcr2, hrec2⟩ :=
    answer_negatives true front _ ha1
      (fun t ht => hneg t (List.mem_append_left _ ht))
      (by rw [hidx1, hconf1, htake]; omega)
  have hl := hneg last (by simp)
  obtain ⟨w3, h3, hlog3, hrec3, hconf3⟩ :=
    answer_negative_last true w2 last ha2 hl.1 hl.2
      (by rw [hidx2, hconf2, hidx1, hconf1, htake]; omega)
  refine ⟨w3, ?_, ?_, ?_, ?_, ?_⟩
  · rw [answerPrompts_append, h2]
    simp [answerPrompts, h3]
  · rw [hlog3, speakRequests_append, speakRequests_append, hsp2, hlog1, speakRequests_append,
      hconf1, hidx1, promptRequests_take_three cands (0 + 1) front.length (by omega),
      ← hfl, promptRequests_succ]
    simp [speakRequests]
  · rw [hlog3, selections_append, selections_append, hsel2, hlog1, selections_append]
    simp [selections]
  · rw [hlog3, sessionsCreated_append, sessionsCreated_append, hcr2, hlog1,
      sessionsCreated_append, hrec1, ← hfl, List.range_succ_eq_map]
    simp [sessionsCreated, Function.comp, Nat.add_assoc, Nat.add_comm 1]
  · rw [hconf3, hconf2, hconf1]

/-- Witness for C4: four candidates, three negative answers; the fourth is never asked. -/
theorem confirmDestinations_all_negative_witness :
    (World.init true true).recognitionSupported = true ∧
    ["A", "B", "C", "D"] ≠ [] ∧
    ["no", "아니오", "Cancel"].length = min ["A", "B", "C", "D"].length 3 ∧
    (∀ t ∈ ["no", "아니오", "Cancel"], isPositive (normalizeAnswer t) = false ∧
      isNegative (normalizeAnswer t) = true) ∧
    ∃ w, answerPrompts ["no", "아니오", "Cancel"]
        (confirmDestinations (Destinations.array ["A", "B", "C", "D"]) true
          (World.init true true)) = some w ∧
      speakRequests w.log = speakRequests (World.init true true).log ++
        promptRequests ["A", "B", "C", "D"] 0 (min ["A", "B", "C", "D"].length 3) ++
          [(notSelectedText, Priority.high)] ∧
      selections w.log = selections (World.init true true).log ++ [none] ∧
      sessionsCreated w.log = sessionsCreated (World.init true true).log ++
        (List.range (min ["A", "B", "C", "D"].length 3)).map
          (fun n => (World.init true true).recogs.length + n) ∧
      w.svc.confirmationDestinations = ["A", "B", "C", "D"].take 3 :=
  ⟨rfl, by decide, by decide, by decide,
    confirmDestinations_all_negative (World.init true true) ["A", "B", "C", "D"]
      ["no", "아니오", "Cancel"] rfl (by decide) (by decide) (by decide)⟩

/-! ## Answer classification -/

/-- C5: a transcript whose normalized form matches an affirmative pattern and also
a negative pattern (such as "not ok" or "no, yes") is treated as affirmative: the
dialog acknowledges, calls the selection callback once with the candidate under the
cursor, leaves the cursor where it is and opens no further session. -/
theorem both_patterns_is_affirmative (w : World) (t : String) (ha : Asking true w)
    (hp : isPositive (normalizeAnswer t) = true)
    (hn : isNegative (normalizeAnswer t) = true) :
    ∃ w2, answerPrompt t w = some w2 ∧
      selections w2.log = selections w.log ++
        [some (w.svc.confirmationDestinations.getD w.svc.currentConfirmationIndex "")] ∧
      speakRequests w2.log = speakRequests w.log ++ [(selectedText, Priority.normal)] ∧
      w2.svc.currentConfirmationIndex = w.svc.currentConfirmationIndex ∧
      w2.svc.confirmationDestinations = w.svc.confirmationDestinations ∧
      sessionsCreated w2.log = sessionsCreated w.log ∧
      (isPositive (normalizeAnswer "not ok") = true ∧
        isNegative (normalizeAnswer "not ok") = true) ∧
      (isPositive (normalizeAnswer "no, yes") = true ∧
        isNegative (normalizeAnswer "no, yes") = true) := by
  have _ := hn
  obtain ⟨w2, h2, hlog2, _, hidx2, hconf2⟩ := answer_positive true w t ha hp
  refine ⟨w2, h2, ?_, ?_, hidx2, hconf2, ?_, by decide, by decide⟩
  · rw [hlog2, selections_append, selections_append]
    simp [selections]
  · rw [hlog2, speakRequests_append, speakRequests_append]
    simp [speakRequests]
  · rw [hlog2, sessionsCreated_append, sessionsCreated_append]
    simp [sessionsCreated]

/-- Witness for C5: the answer "not ok" to the prompt for X selects X. -/
theorem both_patterns_is_affirmative_witness :
    Asking true (confirmDestinations (Destinations.array ["X", "Y"]) true
      (World.init true true)) ∧
    isPositive (normalizeAnswer "not ok") = true ∧
    isNegative (normalizeAnswer "not ok") = true ∧
    ∃ w2, answerPrompt "not ok"
        (confirmDestinations (Destinations.array ["X", "Y"]) true (World.init true true))
          = some w2 ∧
      selections w2.log = [some "X"] ∧ w2.svc.currentConfirmationIndex = 0 := by
  refine ⟨(confirmDestinations_inside true (World.init true true) ["X", "Y"] rfl (by simp)).1,
    by decide, by decide, ?_⟩
  obtain ⟨w2, h2, hsel, _, hidx, _⟩ :=
    both_patterns_is_affirmative
      (confirmDestinations (Destinations.array ["X", "Y"]) true (World.init true true))
      "not ok"
      (confirmDestinations_inside true (World.init true true) ["X", "Y"] rfl (by simp)).1
      (by decide) (by decide)
  exact ⟨w2, h2, by rw [hsel]; decide, by rw [hidx]; decide⟩

theorem lowerChar_whiteSpace (c : Char) (hc : isJsWhiteSpace c = true) :
    lowerChar c = [c] := by
  unfold isJsWhiteSpace at hc
  unfold lowerChar
  simp only [List.mem_cons, List.mem_singleton, Bool.or_eq_true, decide_eq_true_eq,
    Bool.and_eq_true, List.mem_nil_iff, or_false] at hc
  have h1 : ¬ (0x41 ≤ c.toNat ∧ c.toNat ≤ 0x5A) := by omega
  have h2 : ¬ (c.toNat = 0x212A) := by omega
  have h3 : ¬ (c.toNat = 0x130) := by omega
  rw [if_neg h1, if_neg h2, if_neg h3]

theorem flatMap_lowerChar_whiteSpace (l : List Char)
    (hl : ∀ c ∈ l, isJsWhiteSpace c = true) : l.flatMap lowerChar = l := by
  induction l with
  | nil => rfl
  | cons c cs ih =>
    rw [List.flatMap_cons, lowerChar_whiteSpace c (hl c (List.mem_cons_self _ _)),
      ih (fun d hd => hl d (List.mem_cons_of_mem _ hd))]
    rfl

theorem dropWhile_pad (p : Char → Bool) (pre l : List Char)
    (hpre : ∀ c ∈ pre, p c = true) (hl : ∀ a ∈ l.head?, p a = false) :
    (pre ++ l).dropWhile p = l := by
  induction pre with
  | nil =>
    cases l with
    | nil => rfl
    | cons a as =>
      have := hl a (by simp)
      simp [List.dropWhile, this]
  | cons c cs ih =>
    simp only [List.cons_append, List.dropWhile, hpre c (List.mem_cons_self _ _)]
    exact ih (fun d hd => hpre d (List.mem_cons_of_mem _ hd))

theorem trim_pad (pre word post : String)
    (hpre : ∀ c ∈ pre.data, isJsWhiteSpace c = true)
    (hpost : ∀ c ∈ post.data, isJsWhiteSpace c = true)
    (hw : isTrimmed word = true) :
    trim (pre ++ word ++ post) = word := by
  unfold isTrimmed at hw
  have hdata : ((pre.data ++ word.data ++ post.data).dropWhile isJsWhiteSpace).rdropWhile
      isJsWhiteSpace = word.data := by
    cases hh : word.data.head? with
    | none => simp [hh] at hw
    | some a =>
      cases hg : word.data.getLast? with
      | none => simp [hh, hg] at hw
      | some b =>
        simp only [hh, hg, Bool.and_eq_true, Bool.not_eq_true'] at hw
        rw [List.append_assoc, dropWhile_pad isJsWhiteSpace pre.data _ hpre]
        · unfold List.rdropWhile
          rw [List.reverse_append, dropWhile_pad isJsWhiteSpace post.data.reverse _
            (fun c hc => hpost c (List.mem_reverse.mp hc)), List.reverse_reverse]
          intro x hx
          rw [List.head?_reverse, hg] at hx
          cases hx
          exact hw.2
        · intro x hx
          have hne : word.data ≠ [] := by
            intro h0
            simp [h0] at hh
          rw [List.head?_append_of_ne_nil _ hne, hh] at hx
          cases hx
          exact hw.1
  show (⟨_⟩ : String) = word
  simp only [String.data_append]
  rw [hdata]

theorem toLowerCase_append (a b : String) :
    toLowerCase (a ++ b) = toLowerCase a ++ toLowerCase b := by
  apply String.ext
  simp [toLowerCase, String.data_append, List.flatMap_append]

theorem toLowerCase_whiteSpace (s : String)
    (hs : ∀ c ∈ s.data, isJsWhiteSpace c = true) : toLowerCase s = s := by
  apply String.ext
  simp [toLowerCase, flatMap_lowerChar_whiteSpace s.data hs]

/-- A word written in any letter case, with white space around it, normalizes to
the lower-case word. -/
theorem normalizeAnswer_padded (pre v post word : String)
    (hpre : ∀ c ∈ pre.data, isJsWhiteSpace c = true)
    (hpost : ∀ c ∈ post.data, isJsWhiteSpace c = true)
    (hv : toLowerCase v = word) (hw : isTrimmed word = true) :
    normalizeAnswer (pre ++ v ++ post) = word := by
  unfold normalizeAnswer
  rw [toLowerCase_append, toLowerCase_append, toLowerCase_whiteSpace pre hpre,
    toLowerCase_whiteSpace post hpost, hv]
  exact trim_pad pre word post hpre hpost hw

theorem specAffirmativeForms_positive :
    ∀ word ∈ specAffirmativeForms, isTrimmed word = true ∧ isPositive word = true := by
  decide

theorem specNegativeForms_negative :
    ∀ word ∈ specNegativeForms,
      isTrimmed word = true ∧ isPositive word = false ∧ isNegative word = true := by
  decide

/-- C6: every affirmative form listed in the specification, given alone as the
transcript in any letter case and with white space around it, matches an
affirmative pattern, so the callback acknowledges and selects the candidate; every
listed negative form, given alone in the same way, matches no affirmative pattern
and matches a negative one, so the callback advances the cursor and asks the next
candidate instead of selecting. -/
theorem listed_forms_classified :
    (∀ word ∈ specAffirmativeForms, ∀ pre v post : String,
      (∀ c ∈ pre.data, isJsWhiteSpace c = true) →
      (∀ c ∈ post.data, isJsWhiteSpace c = true) →
      toLowerCase v = word →
      isPositive (normalizeAnswer (pre ++ v ++ post)) = true ∧
      ∀ (dest : String) (h : Bool) (w : World),
        confirmCallback dest h (pre ++ v ++ post) w =
          callSelection h (some dest) (speak selectedText Priority.normal w)) ∧
    (∀ word ∈ specNegativeForms, ∀ pre v post : String,
      (∀ c ∈ pre.data, isJsWhiteSpace c = true) →
      (∀ c ∈ post.data, isJsWhiteSpace c = true) →
      toLowerCase v = word →
      isPositive (normalizeAnswer (pre ++ v ++ post)) = false ∧
      isNegative (normalizeAnswer (pre ++ v ++ post)) = true ∧
      ∀ (dest : String) (h : Bool) (w : World),
        confirmCallback dest h (pre ++ v ++ post) w =
          askNext h { w with svc := { w.svc with
            currentConfirmationIndex := w.svc.currentConfirmationIndex + 1 } }) := by
  constructor
  · intro word hword pre v post hpre hpost hv
    have hk := specAffirmativeForms_positive word hword
    have hnorm := normalizeAnswer_padded pre v post word hpre hpost hv hk.1
    have hp : isPositive (normalizeAnswer (pre ++ v ++ post)) = true := by
      rw [hnorm]; exact hk.2
    exact ⟨hp, fun dest h w => confirmCallback_positive dest h _ w hp⟩
  · intro word hword pre v post hpre hpost hv
    have hk := specNegativeForms_negative word hword
    have hnorm := normalizeAnswer_padded pre v post word hpre hpost hv hk.1
    have hp : isPositive (normalizeAnswer (pre ++ v ++ post)) = false := by
      rw [hnorm]; exact hk.2.1
    have hn : isNegative (normalizeAnswer (pre ++ v ++ post)) = true := by
      rw [hnorm]; exact hk.2.2
    exact ⟨hp, hn, fun dest h w => confirmCallback_negative dest h _ w hp hn⟩

/-- Witness for C6: "OKAY" and "Nope" between blanks, tabs and line breaks. -/
theorem listed_forms_classified_witness :
    ("okay" ∈ specAffirmativeForms ∧
      (∀ c ∈ " \t".data, isJsWhiteSpace c = true) ∧
      (∀ c ∈ "\n ".data, isJsWhiteSpace c = true) ∧
      toLowerCase "OKay" = "okay" ∧
      isPositive (normalizeAnswer (" \t" ++ "OKay" ++ "\n ")) = true) ∧
    ("nope" ∈ specNegativeForms ∧
      toLowerCase "NoPe" = "nope" ∧
      isPositive (normalizeAnswer (" \t" ++ "NoPe" ++ "\n ")) = false ∧
      isNegative (normalizeAnswer (" \t" ++ "NoPe" ++ "\n ")) = true) :=
  ⟨⟨by decide, by decide, by decide, by decide,
      (listed_forms_classified.1 "okay" (by decide) " \t" "OKay" "\n "
        (by decide) (by decide) (by decide)).1⟩,
    ⟨by decide, by decide,
      (listed_forms_classified.2 "nope" (by decide) " \t" "NoPe" "\n "
        (by decide) (by decide) (by decide)).1,
      (listed_forms_classified.2 "nope" (by decide) " \t" "NoPe" "\n "
        (by decide) (by decide) (by decide)).2.1⟩⟩

/-! ## The speech output queue -/

theorem runEvents_append (es fs : List Event) :
    ∀ w : World, runEvents (es ++ fs) w = (runEvents es w).bind (runEvents fs) := by
  induction es with
  | nil => intro w; simp [runEvents]
  | cons e es ih =>
    intro w
    simp only [List.cons_append, runEvents]
    cases step e w with
    | none => rfl
    | some w1 => simpa using ih w1

theorem spokenTexts_append (es fs : List Event) :
    spokenTexts (es ++ fs) = spokenTexts es ++ spokenTexts fs := by
  simp [spokenTexts, List.filterMap_append]

/-- A normal-priority `speak` on an enabled, usable, idle queue hands the text over at once. -/
theorem speak_idle (t : String) (p : Priority) (w : World)
    (hen : w.svc.isVoiceEnabled = true) (hus : w.synthesisUsable = true)
    (hsp : w.svc.isSpeaking = false) (hq : w.svc.voiceQueue = []) :
    speak t p w =
      { w with
        log := w.log ++ [Obs.speak t p]
        svc := { w.svc with isSpeaking := true, voiceQueue := [] }
        handed := w.handed ++ [t]
        active := w.active ++ [t] } := by
  unfold speak
  simp [hen, hus, hsp, hq, processVoiceQueue]

/-- A normal-priority `speak` while something is speaking only appends to the queue. -/
theorem speak_normal_busy (t : String) (w : World)
    (hen : w.svc.isVoiceEnabled = true) (hus : w.synthesisUsable = true)
    (hsp : w.svc.isSpeaking = true) :
    speak t Priority.normal w =
      { w with
        log := w.log ++ [Obs.speak t Priority.normal]
        svc := { w.svc with voiceQueue := w.svc.voiceQueue ++ [t] } } := by
  unfold speak
  simp [hen, hus, hsp]

/-- A high-priority `speak` while something is speaking cancels and clears first. -/
theorem speak_high_busy (t : String) (w : World)
    (hen : w.svc.isVoiceEnabled = true) (hus : w.synthesisUsable = true)
    (hsp : w.svc.isSpeaking = true) :
    speak t Priority.high w =
      { w with
        log := w.log ++ [Obs.speak t Priority.high]
        active := []
        cancelled := w.cancelled + w.active.length
        svc := { w.svc with voiceQueue := [t] } } := by
  unfold speak
  simp [hen, hus, hsp, synthesisCancel]

theorem fifoInv_step (S : List String) (w w2 : World) (e : Event)
    (hinv : FifoInv S w) (he : isNormalQueueEvent e = true) (hstep : step e w = some w2) :
    FifoInv (S ++ spokenTexts [e]) w2 ∧ (w2.handed ≠ w.handed → w.active = []) := by
  obtain ⟨hen, hus, htx, hnc, hshape⟩ := hinv
  cases e with
  | speak t p =>
    cases p with
    | high => simp [isNormalQueueEvent] at he
    | normal =>
      simp only [step, Option.some.injEq] at hstep
      subst hstep
      rcases hshape with ⟨hsp, hq, hact, htm⟩ | ⟨hsp, hact, htm⟩ | ⟨hsp, hact, htm⟩
      · rw [speak_idle t _ w hen hus hsp hq]
        refine ⟨⟨hen, hus, ?_, hnc, Or.inr (Or.inl ⟨rfl, ⟨t, by simp [hact]⟩, htm⟩)⟩,
          fun _ => hact⟩
        simp [spokenTexts, htx, hq]
      · rw [speak_normal_busy t w hen hus hsp]
        refine ⟨⟨hen, hus, ?_, hnc, Or.inr (Or.inl ⟨hsp, hact, htm⟩)⟩, fun h => absurd rfl h⟩
        simp [spokenTexts, htx]
      · rw [speak_normal_busy t w hen hus hsp]
        refine ⟨⟨hen, hus, ?_, hnc, Or.inr (Or.inr ⟨hsp, hact, htm⟩)⟩, fun h => absurd rfl h⟩
        simp [spokenTexts, htx]
  | utteranceDone =>
    rcases hshape with ⟨hsp, hq, hact, htm⟩ | ⟨hsp, ⟨t, hact⟩, htm⟩ | ⟨hsp, hact, htm⟩
    · simp [step, hact] at hstep
    · simp only [step, hact, Option.some.injEq] at hstep
      subst hstep
      refine ⟨⟨hen, hus, ?_, hnc, Or.inr (Or.inr ⟨hsp, rfl, by simp [htm]⟩)⟩,
        fun h => absurd rfl h⟩
      simp [spokenTexts, htx]
    · simp [step, hact] at hstep
  | timer tm =>
    cases tm with
    | autoRestart => simp [isNormalQueueEvent] at he
    | retry => simp [isNormalQueueEvent] at he
    | processVoiceQueue =>
      rcases hshape with ⟨hsp, hq, hact, htm⟩ | ⟨hsp, hact, htm⟩ | ⟨hsp, hact, htm⟩
      · simp [step, htm] at hstep
      · simp [step, htm] at hstep
      · simp only [step, htm, List.mem_singleton, if_true, Option.some.injEq, fireTimer] at hstep
        subst hstep
        cases hq : w.svc.voiceQueue with
        | nil =>
          refine ⟨⟨?_, ?_, ?_, ?_, Or.inl ?_⟩, ?_⟩ <;>
            simp [processVoiceQueue, hq, hen, hus, hnc, hact, htx, spokenTexts]
        | cons a q =>
          refine ⟨⟨?_, ?_, ?_, ?_, Or.inr (Or.inl ?_)⟩, ?_⟩ <;>
            simp [processVoiceQueue, hq, hen, hus, hnc, hact, htx, spokenTexts]
  | _ => simp [isNormalQueueEvent] at he

theorem fifoInv_run (es : List Event) :
    ∀ (S : List String) (w w2 : World), FifoInv S w →
      (∀ e ∈ es, isNormalQueueEvent e = true) → runEvents es w = some w2 →
      FifoInv (S ++ spokenTexts es) w2 := by
  induction es with
  | nil =>
    intro S w w2 hinv _ hrun
    simp only [runEvents, Option.some.injEq] at hrun
    subst hrun
    simpa [spokenTexts] using hinv
  | cons e es ih =>
    intro S w w2 hinv hes hrun
    simp only [runEvents] at hrun
    cases hs : step e w with
    | none => simp [hs] at hrun
    | some w1 =>
      rw [hs] at hrun
      have h1 := fifoInv_step S w w1 e hinv (hes e (List.mem_cons_self _ _)) hs
      have h2 := ih _ w1 w2 h1.1 (fun x hx => hes x (List.mem_cons_of_mem _ hx)) hrun
      have : spokenTexts (e :: es) = spokenTexts [e] ++ spokenTexts es :=
        spokenTexts_append [e] es
      rw [this, ← List.append_assoc]
      exact h2

/-- From the gap before the next utterance, the engine and timer events alone
empty the queue: every queued text is handed over and the queue falls idle. -/
theorem fifoInv_drain_gap (n : Nat) :
    ∀ (S : List String) (w : World), FifoInv S w → w.svc.voiceQueue.length = n →
      w.timers = [Timer.processVoiceQueue] →
      ∃ es w2, (∀ e ∈ es, e = Event.utteranceDone ∨ e = Event.timer Timer.processVoiceQueue) ∧
        runEvents es w = some w2 ∧ FifoInv S w2 ∧ w2.active = [] ∧ w2.timers = [] := by
  induction n with
  | zero =>
    intro S w hinv hlen htm
    have hq : w.svc.voiceQueue = [] := List.length_eq_zero.mp hlen
    obtain ⟨hen, hus, htx, hnc, hshape⟩ := hinv
    have hact : w.active = [] := by
      rcases hshape with ⟨_, _, _, h⟩ | ⟨_, _, h⟩ | ⟨_, h, _⟩
      · simp [htm] at h
      · simp [htm] at h
      · exact h
    refine ⟨[Event.timer Timer.processVoiceQueue], processVoiceQueue { w with timers := [] },
      by simp, ?_, ?_, ?_, ?_⟩
    · simp [runEvents, step, htm, fireTimer]
    · refine ⟨?_, ?_, ?_, ?_, Or.inl ?_⟩ <;>
        simp [processVoiceQueue, hq, hen, hus, hnc, hact, htx]
    · simp [processVoiceQueue, hq, hact]
    · simp [processVoiceQueue, hq]
  | succ n ih =>
    intro S w hinv hlen htm
    obtain ⟨hen, hus, htx, hnc, hshape⟩ := hinv
    have hact : w.active = [] := by
      rcases hshape with ⟨_, _, _, h⟩ | ⟨_, _, h⟩ | ⟨_, h, _⟩
      · simp [htm] at h
      · simp [htm] at h
      · exact h
    cases hq : w.svc.voiceQueue with
    | nil => simp [hq] at hlen
    | cons a q =>
      have hql : q.length = n := by simpa [hq] using hlen
      let w1 : World :=
        { w with
          timers := [Timer.processVoiceQueue]
          svc := { w.svc with isSpeaking := true, voiceQueue := q }
          handed := w.handed ++ [a]
          active := [] }
      have hinv1 : FifoInv S w1 := by
        refine ⟨hen, hus, ?_, hnc, Or.inr (Or.inr ⟨rfl, rfl, rfl⟩)⟩
        simp [w1, htx, hq]
      obtain ⟨es, w2, hes, hrun, hinv2, ha2, ht2⟩ := ih S w1 hinv1 hql rfl
      refine ⟨Event.timer Timer.processVoiceQueue :: Event.utteranceDone :: es, w2,
        ?_, ?_, hinv2, ha2, ht2⟩
      · intro e he
        simp only [List.mem_cons] at he
        rcases he with h | h | h
        · exact Or.inr h
        · exact Or.inl h
        · exact hes e h
      · have : runEvents [Event.timer Timer.processVoiceQueue, Event.utteranceDone] w
            = some w1 := by
          simp [runEvents, step, htm, fireTimer, processVoiceQueue, hq, hact, w1]
        have happ := runEvents_append
          [Event.timer Timer.processVoiceQueue, Event.utteranceDone] es w
        simp only [List.cons_append, List.nil_append] at happ
        rw [happ, this]
        exact hrun

/-- From any state of a normal-priority run the engine and timer events alone
bring the queue to rest with everything handed over. -/
theorem fifoInv_drain (S : List String) (w : World) (hinv : FifoInv S w) :
    ∃ es w2, (∀ e ∈ es, e = Event.utteranceDone ∨ e = Event.timer Timer.processVoiceQueue) ∧
      runEvents es w = some w2 ∧ FifoInv S w2 ∧ w2.active = [] ∧ w2.timers = [] := by
  rcases hinv.shape with ⟨hsp, hq, hact, htm⟩ | ⟨hsp, ⟨t, hact⟩, htm⟩ | ⟨hsp, hact, htm⟩
  · exact ⟨[], w, by simp, rfl, hinv, hact, htm⟩
  · let w1 : World := { w with active := [], timers := [Timer.processVoiceQueue] }
    have hinv1 : FifoInv S w1 :=
      ⟨hinv.enabled, hinv.usable, hinv.texts, hinv.noCancel, Or.inr (Or.inr ⟨hsp, rfl, rfl⟩)⟩
    obtain ⟨es, w2, hes, hrun, hinv2, ha2, ht2⟩ := fifoInv_drain_gap _ S w1 hinv1 rfl rfl
    refine ⟨Event.utteranceDone :: es, w2, ?_, ?_, hinv2, ha2, ht2⟩
    · intro e he
      simp only [List.mem_cons] at he
      rcases he with h | h
      · exact Or.inl h
      · exact hes e h
    · have : step Event.utteranceDone w = some w1 := by
        simp [step, hact, htm, w1]
      simp only [runEvents, this, Option.some_bind]
      exact hrun
  · exact fifoInv_drain_gap _ S w hinv rfl htm

theorem fifoInv_init (rs : Bool) : FifoInv [] (World.init true rs) :=
  ⟨rfl, rfl, rfl, rfl, Or.inl ⟨rfl, rfl, rfl, rfl⟩⟩

theorem fifoInv_rest (S : List String) (w : World) (hinv : FifoInv S w)
    (hact : w.active = []) (htm : w.timers = []) : w.handed = S := by
  rcases hinv.shape with ⟨_, hq, _, _⟩ | ⟨_, ⟨t, h⟩, _⟩ | ⟨_, _, h⟩
  · rw [hinv.texts, hq, List.append_nil]
  · simp [hact] at h
  · simp [htm] at h

/-- C7: in every run from a fresh service (voice enabled, synthesis usable) whose
events are calls of `speak` at normal priority, ends or errors of the playing
utterance and the 100 ms continuations, at every moment the texts handed to the
engine followed by the queued texts are the texts passed to `speak` in call order,
so the handed texts are a prefix of them; at most one handed utterance has not yet
finished, and an event hands a text over only in a state where no handed utterance
is still active; when no utterance is active and no continuation is pending, every
text has been handed over exactly once, in order; and such a state of rest is
always reached by letting the engine and timer events happen. -/
theorem normal_speak_fifo (rs : Bool) (es : List Event) (w : World)
    (hes : ∀ e ∈ es, isNormalQueueEvent e = true)
    (hrun : runEvents es (World.init true rs) = some w) :
    spokenTexts es = w.handed ++ w.svc.voiceQueue ∧
    w.handed <+: spokenTexts es ∧
    w.active.length ≤ 1 ∧
    (∀ e w2, isNormalQueueEvent e = true → step e w = some w2 →
      w2.handed ≠ w.handed → w.active = []) ∧
    (w.active = [] → w.timers = [] → w.handed = spokenTexts es) ∧
    (∃ es2 w2,
      (∀ e ∈ es2, e = Event.utteranceDone ∨ e = Event.timer Timer.processVoiceQueue) ∧
      runEvents es2 w = some w2 ∧ w2.active = [] ∧ w2.timers = [] ∧
      w2.handed = spokenTexts es) := by
  have hinv : FifoInv (spokenTexts es) w := by
    have := fifoInv_run es [] _ w (fifoInv_init rs) hes hrun
    simpa using this
  refine ⟨hinv.texts, ?_, ?_, ?_, fifoInv_rest _ w hinv, ?_⟩
  · rw [hinv.texts]
    exact List.prefix_append _ _
  · rcases hinv.shape with ⟨_, _, h, _⟩ | ⟨_, ⟨t, h⟩, _⟩ | ⟨_, h, _⟩ <;> simp [h]
  · intro e w2 he hstep
    exact (fifoInv_step _ w w2 e hinv he hstep).2
  · obtain ⟨es2, w2, hes2, hrun2, hinv2, ha2, ht2⟩ := fifoInv_drain _ w hinv
    exact ⟨es2, w2, hes2, hrun2, ha2, ht2, fifoInv_rest _ w2 hinv2 ha2 ht2⟩

/-- Witness for C7: two requests, the first utterance ends and the gap elapses. -/
theorem normal_speak_fifo_witness :
    (∀ e ∈ [Event.speak "a" Priority.normal, Event.speak "b" Priority.normal,
        Event.utteranceDone, Event.timer Timer.processVoiceQueue],
      isNormalQueueEvent e = true) ∧
    ∃ w, runEvents [Event.speak "a" Priority.normal, Event.speak "b" Priority.normal,
        Event.utteranceDone, Event.timer Timer.processVoiceQueue]
        (World.init true true) = some w ∧
      w.handed = ["a", "b"] ∧ w.active = ["b"] ∧
      w.handed <+: spokenTexts [Event.speak "a" Priority.normal,
        Event.speak "b" Priority.normal, Event.utteranceDone,
        Event.timer Timer.processVoiceQueue] ∧
      w.active.length ≤ 1 := by
  refine ⟨by decide, _, rfl, by decide, by decide, ?_⟩
  have h := normal_speak_fifo true
    [Event.speak "a" Priority.normal, Event.speak "b" Priority.normal,
      Event.utteranceDone, Event.timer Timer.processVoiceQueue] _ (by decide) rfl
  exact ⟨h.2.1, h.2.2.1⟩

/-- While the queue holds exactly one text and no method of the service is
called, the engine and timer events hand over nothing or exactly that text. -/
theorem synthesis_events_hand_head (es : List Event) :
    ∀ (w w3 : World) (t : String) (H : List String),
      (w.handed = H ∧ w.svc.voiceQueue = [t]) ∨ (w.handed = H ++ [t] ∧ w.svc.voiceQueue = []) →
      (∀ e ∈ es, isSynthesisEvent e = true) → runEvents es w = some w3 →
      w3.handed = H ∨ w3.handed = H ++ [t] := by
  induction es with
  | nil =>
    intro w w3 t H hw _ hrun
    simp only [runEvents, Option.some.injEq] at hrun
    subst hrun
    rcases hw with h | h
    · exact Or.inl h.1
    · exact Or.inr h.1
  | cons e es ih =>
    intro w w3 t H hw hes hrun
    simp only [runEvents] at hrun
    cases hs : step e w with
    | none => simp [hs] at hrun
    | some w1 =>
      rw [hs] at hrun
      refine ih w1 w3 t H ?_ (fun x hx => hes x (List.mem_cons_of_mem _ hx)) hrun
      have he := hes e (List.mem_cons_self _ _)
      cases e with
      | utteranceDone =>
        cases ha : w.active with
        | nil => simp [step, ha] at hs
        | cons a as =>
          simp only [step, ha, Option.some.injEq] at hs
          subst hs
          exact hw
      | cancelNotice =>
        by_cases hc : w.cancelled = 0
        · simp [step, hc] at hs
        · simp only [step, hc, if_false, Option.some.injEq] at hs
          subst hs
          exact hw
      | timer tm =>
        cases tm with
        | autoRestart => simp [isSynthesisEvent] at he
        | retry => simp [isSynthesisEvent] at he
        | processVoiceQueue =>
          by_cases hm : Timer.processVoiceQueue ∈ w.timers
          · simp only [step, hm, if_true, Option.some.injEq, fireTimer] at hs
            subst hs
            rcases hw with ⟨hh, hq⟩ | ⟨hh, hq⟩
            · right
              simp [processVoiceQueue, hq, hh]
            · right
              simp [processVoiceQueue, hq, hh]
          · simp [step, hm] at hs
      | _ => simp [isSynthesisEvent] at he

/-- C8: when the voice is enabled and an utterance is playing (`isSpeaking`),
`speak(t, high)` cancels what the engine holds, removes every pending entry of the
queue and leaves `t` alone in it: the next call of `processVoiceQueue` hands `t`
over, no run of engine and timer events hands anything else over before `t`, and
the event of the cancelled utterance (or a continuation that is already pending),
once its 100 ms continuation fires, does hand `t` over. -/
theorem speak_high_preempts (w : World) (t : String)
    (hen : w.svc.isVoiceEnabled = true) (hus : w.synthesisUsable = true)
    (hsp : w.svc.isSpeaking = true) :
    (speak t Priority.high w).active = [] ∧
    (speak t Priority.high w).cancelled = w.cancelled + w.active.length ∧
    (speak t Priority.high w).svc.voiceQueue = [t] ∧
    (speak t Priority.high w).handed = w.handed ∧
    (processVoiceQueue (speak t Priority.high w)).handed = w.handed ++ [t] ∧
    (∀ es w3, (∀ e ∈ es, isSynthesisEvent e = true) →
      runEvents es (speak t Priority.high w) = some w3 →
      w3.handed = w.handed ∨ w3.handed = w.handed ++ [t]) ∧
    (w.active ≠ [] →
      (runEvents [Event.cancelNotice, Event.timer Timer.processVoiceQueue]
        (speak t Priority.high w)).map (fun w3 => w3.handed) = some (w.handed ++ [t])) ∧
    (Timer.processVoiceQueue ∈ w.timers →
      (runEvents [Event.timer Timer.processVoiceQueue]
        (speak t Priority.high w)).map (fun w3 => w3.handed) = some (w.handed ++ [t])) := by
  rw [speak_high_busy t w hen hus hsp]
  refine ⟨rfl, rfl, rfl, rfl, by simp [processVoiceQueue], ?_, ?_, ?_⟩
  · intro es w3 hes hrun
    refine synthesis_events_hand_head es _ w3 t w.handed ?_ hes hrun
    exact Or.inl ⟨rfl, rfl⟩
  · intro hact
    have hpos : 0 < w.active.length := List.length_pos.mpr hact
    have hc : ¬ (w.cancelled + w.active.length = 0) := by omega
    simp [runEvents, step, hc, fireTimer, processVoiceQueue]
  · intro hm
    simp [runEvents, step, hm, fireTimer, processVoiceQueue]

/-- Witness for C8: a high-priority text while a first utterance plays and a second waits. -/
theorem speak_high_preempts_witness :
    (speak "b" Priority.normal
      (speak "a" Priority.normal (World.init true true))).svc.isSpeaking = true ∧
    (speak "b" Priority.normal
      (speak "a" Priority.normal (World.init true true))).svc.voiceQueue = ["b"] ∧
    (speak "urgent" Priority.high (speak "b" Priority.normal
      (speak "a" Priority.normal (World.init true true)))).svc.voiceQueue = ["urgent"] ∧
    (speak "urgent" Priority.high (speak "b" Priority.normal
      (speak "a" Priority.normal (World.init true true)))).active = [] :=
  ⟨by decide, by decide,
    (speak_high_preempts (speak "b" Priority.normal
      (speak "a" Priority.normal (World.init true true))) "urgent"
      (by decide) (by decide) (by decide)).2.2.1,
    (speak_high_preempts (speak "b" Priority.normal
      (speak "a" Priority.normal (World.init true true))) "urgent"
      (by decide) (by decide) (by decide)).1⟩

/-- C9, counterexample: while "n" plays, "A" is requested at high priority and
waits in the queue, not yet handed to the engine; a second high-priority request
"B" then removes "A" from the queue, and "A" is never handed over. -/
theorem high_priority_pending_is_dropped :
    (speak "A" Priority.high
      (speak "n" Priority.normal (World.init true true))).svc.isSpeaking = true ∧
    Obs.speak "A" Priority.high ∈ (speak "A" Priority.high
      (speak "n" Priority.normal (World.init true true))).log ∧
    (speak "A" Priority.high
      (speak "n" Priority.normal (World.init true true))).svc.voiceQueue = ["A"] ∧
    "A" ∉ (speak "A" Priority.high
      (speak "n" Priority.normal (World.init true true))).handed ∧
    "A" ∉ (speak "B" Priority.high (speak "A" Priority.high
      (speak "n" Priority.normal (World.init true true)))).svc.voiceQueue ∧
    (runEvents [Event.speak "n" Priority.normal, Event.speak "A" Priority.high,
        Event.speak "B" Priority.high, Event.cancelNotice,
        Event.timer Timer.processVoiceQueue, Event.utteranceDone,
        Event.timer Timer.processVoiceQueue]
      (World.init true true)).map (fun w => (w.handed, w.svc.voiceQueue, w.svc.isSpeaking))
      = some (["n", "B"], [], false) := by
  decide

/-- C9, as amended: the queue is a single first-in-first-out list of texts with no
priority kept in it. Every accepted `speak` puts its text behind all the texts
already waiting; when nothing preempts (normal priority, or nothing speaking) the
texts handed over followed by the waiting ones are the former ones followed by the
new text, in order. A high-priority `speak` that arrives while something is speaking
clears the whole waiting list, whatever the priority its entries were requested
with, so that afterwards the queue holds the new text only. -/
theorem speak_queue_is_one_fifo (w : World) (t : String) (p : Priority)
    (hen : w.svc.isVoiceEnabled = true) (hus : w.synthesisUsable = true) :
    ((p = Priority.normal ∨ w.svc.isSpeaking = false) →
      (speak t p w).handed ++ (speak t p w).svc.voiceQueue
        = w.handed ++ w.svc.voiceQueue ++ [t]) ∧
    (p = Priority.normal → w.svc.isSpeaking = true →
      (speak t p w).svc.voiceQueue = w.svc.voiceQueue ++ [t] ∧
      (speak t p w).handed = w.handed) ∧
    (p = Priority.high → w.svc.isSpeaking = true →
      (speak t p w).svc.voiceQueue = [t] ∧ (speak t p w).handed = w.handed) := by
  refine ⟨?_, ?_, ?_⟩
  · intro h
    cases hsp : w.svc.isSpeaking with
    | true =>
      have hp : p = Priority.normal := by
        rcases h with h | h
        · exact h
        · rw [hsp] at h; cases h
      subst hp
      rw [speak_normal_busy t w hen hus hsp]
      simp
    | false =>
      unfold speak
      cases hq : w.svc.voiceQueue with
      | nil => simp [hen, hus, hsp, hq, processVoiceQueue]
      | cons a q => simp [hen, hus, hsp, hq, processVoiceQueue]
  · intro hp hsp
    subst hp
    rw [speak_normal_busy t w hen hus hsp]
    exact ⟨rfl, rfl⟩
  · intro hp hsp
    subst hp
    rw [speak_high_busy t w hen hus hsp]
    exact ⟨rfl, rfl⟩

/-- Witness for C9 as amended: a normal and then a high request while "n" plays. -/
theorem speak_queue_is_one_fifo_witness :
    (speak "n" Priority.normal (World.init true true)).svc.isVoiceEnabled = true ∧
    (speak "n" Priority.normal (World.init true true)).synthesisUsable = true ∧
    (speak "n" Priority.normal (World.init true true)).svc.isSpeaking = true ∧
    (speak "m" Priority.normal
      (speak "n" Priority.normal (World.init true true))).svc.voiceQueue = [] ++ ["m"] ∧
    (speak "h" Priority.high
      (speak "n" Priority.normal (World.init true true))).svc.voiceQueue = ["h"] :=
  ⟨by decide, by decide, by decide,
    ((speak_queue_is_one_fifo (speak "n" Priority.normal (World.init true true)) "m"
      Priority.normal (by decide) (by decide)).2.1 rfl (by decide)).1,
    ((speak_queue_is_one_fifo (speak "n" Priority.normal (World.init true true)) "h"
      Priority.high (by decide) (by decide)).2.2 rfl (by decide)).1⟩

/-- C10: `setVoiceEnabled(false)` cancels what the engine holds, empties the queue
and marks it idle; and while the voice is disabled a call of `speak`, at either
priority, changes nothing but the record of the call: the fields of the service
(queue and `isSpeaking` among them), the engine and the timers are untouched. -/
theorem disabled_voice_is_silent :
    (∀ w : World,
      (setVoiceEnabled false w).active = [] ∧
      (setVoiceEnabled false w).cancelled = w.cancelled + w.active.length ∧
      (setVoiceEnabled false w).svc.voiceQueue = [] ∧
      (setVoiceEnabled false w).svc.isSpeaking = false ∧
      (setVoiceEnabled false w).svc.isVoiceEnabled = false ∧
      (setVoiceEnabled false w).handed = w.handed) ∧
    (∀ (w : World) (t : String) (p : Priority), w.svc.isVoiceEnabled = false →
      speak t p w = { w with log := w.log ++ [Obs.speak t p] } ∧
      (speak t p w).svc = w.svc ∧
      (speak t p w).handed = w.handed ∧
      (speak t p w).active = w.active ∧
      (speak t p w).cancelled = w.cancelled ∧
      (speak t p w).timers = w.timers) := by
  constructor
  · intro w
    simp [setVoiceEnabled, synthesisCancel]
  · intro w t p hdis
    have key : speak t p w = { w with log := w.log ++ [Obs.speak t p] } := by
      unfold speak
      simp [hdis]
    rw [key]
    exact ⟨rfl, rfl, rfl, rfl, rfl, rfl⟩

/-- Witness for C10: the voice is switched off while "a" plays and "b" waits, then
a high-priority request is made. -/
theorem disabled_voice_is_silent_witness :
    (setVoiceEnabled false (speak "b" Priority.normal
      (speak "a" Priority.normal (World.init true true)))).svc.isVoiceEnabled = false ∧
    (speak "c" Priority.high (setVoiceEnabled false (speak "b" Priority.normal
      (speak "a" Priority.normal (World.init true true))))).svc =
      (setVoiceEnabled false (speak "b" Priority.normal
        (speak "a" Priority.normal (World.init true true)))).svc ∧
    (speak "c" Priority.high (setVoiceEnabled false (speak "b" Priority.normal
      (speak "a" Priority.normal (World.init true true))))).handed =
      (setVoiceEnabled false (speak "b" Priority.normal
        (speak "a" Priority.normal (World.init true true)))).handed :=
  ⟨by decide,
    (disabled_voice_is_silent.2 (setVoiceEnabled false (speak "b" Priority.normal
      (speak "a" Priority.normal (World.init true true)))) "c" Priority.high
      (by decide)).2.1,
    (disabled_voice_is_silent.2 (setVoiceEnabled false (speak "b" Priority.normal
      (speak "a" Priority.normal (World.init true true)))) "c" Priority.high
      (by decide)).2.2.1⟩

/-- C11, failing run: "a" plays, the voice is switched off and on again, "b" and
"c" are requested, then the event of the cancelled "a" arrives and its 100 ms
continuation fires: "c" is handed to the engine while "b" has neither ended nor
been cancelled. -/
theorem two_utterances_in_flight :
    (∀ e ∈ [Event.speak "a" Priority.normal, Event.setVoiceEnabled false,
        Event.setVoiceEnabled true, Event.speak "b" Priority.normal,
        Event.speak "c" Priority.normal, Event.cancelNotice,
        Event.timer Timer.processVoiceQueue], isOutputQueueEvent e = true) ∧
    (runEvents [Event.speak "a" Priority.normal, Event.setVoiceEnabled false,
        Event.setVoiceEnabled true, Event.speak "b" Priority.normal,
        Event.speak "c" Priority.normal, Event.cancelNotice,
        Event.timer Timer.processVoiceQueue] (World.init true true)).map
      (fun w => (w.active, w.handed, w.cancelled)) = some (["b", "c"], ["a", "b", "c"], 0) := by
  decide

theorem oneToken_speak (t : String) (p : Priority) (w : World) (h : OneToken w) :
    OneToken (speak t p w) := by
  unfold speak
  by_cases hen : w.svc.isVoiceEnabled = true
  · by_cases hus : w.synthesisUsable = true
    · rcases h with ⟨hsp, hact, hc, htm⟩ | ⟨hsp, htok⟩
      · right
        cases hq : w.svc.voiceQueue <;>
          simp [hen, hus, hsp, hq, processVoiceQueue, hact, hc, htm]
      · right
        cases p <;> simp [hen, hus, hsp, synthesisCancel] <;> omega
    · simpa [hen, hus, OneToken] using h
  · simpa [hen, OneToken] using h

/-- Without a call of `setVoiceEnabled(false)` the queue keeps its single token. -/
theorem oneToken_step (e : Event) (w w2 : World) (h : OneToken w)
    (he : isOutputQueueEvent e = true) (hne : e ≠ Event.setVoiceEnabled false)
    (hstep : step e w = some w2) : OneToken w2 := by
  cases e with
  | speak t p =>
    simp only [step, Option.some.injEq] at hstep
    subst hstep
    exact oneToken_speak t p w h
  | setVoiceEnabled b =>
    cases b with
    | false => exact absurd rfl hne
    | true =>
      simp only [step, Option.some.injEq] at hstep
      subst hstep
      simpa [setVoiceEnabled, OneToken] using h
  | utteranceDone =>
    cases ha : w.active with
    | nil => simp [step, ha] at hstep
    | cons a as =>
      simp only [step, ha, Option.some.injEq] at hstep
      subst hstep
      rcases h with ⟨_, hact, _, _⟩ | ⟨hsp, htok⟩
      · simp [ha] at hact
      · right
        simp [ha] at htok
        simp [hsp, List.count_append]
        omega
  | cancelNotice =>
    by_cases hc : w.cancelled = 0
    · simp [step, hc] at hstep
    · simp only [step, hc, if_false, Option.some.injEq] at hstep
      subst hstep
      rcases h with ⟨_, _, hc0, _⟩ | ⟨hsp, htok⟩
      · exact absurd hc0 hc
      · right
        simp [hsp, List.count_append]
        omega
  | timer tm =>
    cases tm with
    | autoRestart => simp [isOutputQueueEvent] at he
    | retry => simp [isOutputQueueEvent] at he
    | processVoiceQueue =>
      by_cases hm : Timer.processVoiceQueue ∈ w.timers
      · simp only [step, hm, if_true, Option.some.injEq, fireTimer] at hstep
        subst hstep
        have hpos : 0 < w.timers.count Timer.processVoiceQueue := List.count_pos_iff.mpr hm
        rcases h with ⟨_, _, _, htm⟩ | ⟨hsp, htok⟩
        · omega
        · have hact : w.active = [] := by
            apply List.eq_nil_of_length_eq_zero
            omega
          have hcnt : (w.timers.erase Timer.processVoiceQueue).count Timer.processVoiceQueue
              = 0 := by
            rw [List.count_erase_self]
            omega
          cases hq : w.svc.voiceQueue with
          | nil =>
            left
            simp [processVoiceQueue, hq, hact, hcnt]
            omega
          | cons a q =>
            right
            simp [processVoiceQueue, hq, hact, hcnt]
            omega
      · simp [step, hm] at hstep
  | _ => simp [isOutputQueueEvent] at he

/-- In every run of the output queue that never calls `setVoiceEnabled(false)`, at
most one utterance handed to the engine has neither ended nor been cancelled. -/
theorem one_in_flight_without_disable (es : List Event) :
    ∀ (w w2 : World), OneToken w →
      (∀ e ∈ es, isOutputQueueEvent e = true ∧ e ≠ Event.setVoiceEnabled false) →
      runEvents es w = some w2 → OneToken w2 ∧ w2.active.length ≤ 1 := by
  induction es with
  | nil =>
    intro w w2 h _ hrun
    simp only [runEvents, Option.some.injEq] at hrun
    subst hrun
    refine ⟨h, ?_⟩
    rcases h with ⟨_, hact, _, _⟩ | ⟨_, htok⟩
    · simp [hact]
    · omega
  | cons e es ih =>
    intro w w2 h hes hrun
    simp only [runEvents] at hrun
    cases hs : step e w with
    | none => simp [hs] at hrun
    | some w1 =>
      rw [hs] at hrun
      have he := hes e (List.mem_cons_self _ _)
      exact ih w1 w2 (oneToken_step e w w1 h he.1 he.2 hs)
        (fun x hx => hes x (List.mem_cons_of_mem _ hx)) hrun

/-- The loop of `onresult` keeps a best alternative that beats strictly everything
before it and is not beaten by anything after it among those seen so far. -/
theorem bestLoop_spec (rest : List Alternative) :
    ∀ (before : List Alternative) (b : Alternative) (after : List Alternative),
      (∀ a ∈ before, a.confidence.getD 0 < b.confidence.getD 0) →
      (∀ a ∈ after, a.confidence.getD 0 ≤ b.confidence.getD 0) →
      ∃ (before2 : List Alternative) (b2 : Alternative) (after2 : List Alternative),
        before ++ b :: after ++ rest = before2 ++ b2 :: after2 ∧
        (∀ a ∈ before2, a.confidence.getD 0 < b2.confidence.getD 0) ∧
        (∀ a ∈ after2, a.confidence.getD 0 ≤ b2.confidence.getD 0) ∧
        rest.foldl
          (fun (best : String × ℚ) (alt : Alternative) =>
            if alt.confidence.getD 0 > best.2 then (alt.transcript, alt.confidence.getD 0)
            else best)
          (b.transcript, b.confidence.getD 0) = (b2.transcript, b2.confidence.getD 0) := by
  induction rest with
  | nil =>
    intro before b after hb ha
    exact ⟨before, b, after, by simp, hb, ha, rfl⟩
  | cons x xs ih =>
    intro before b after hb ha
    by_cases hx : x.confidence.getD 0 > b.confidence.getD 0
    · obtain ⟨before2, b2, after2, heq, h1, h2, h3⟩ :=
        ih (before ++ b :: after) x [] (by
          intro a hmem
          rcases List.mem_append.mp hmem with h | h
          · exact lt_trans (hb a h) hx
          · rcases List.mem_cons.mp h with h | h
            · rw [h]; exact hx
            · exact lt_of_le_of_lt (ha a h) hx) (by simp)
      refine ⟨before2, b2, after2, ?_, h1, h2, ?_⟩
      · rw [← heq]; simp
      · simp only [List.foldl_cons, hx, if_true]
        exact h3
    · obtain ⟨before2, b2, after2, heq, h1, h2, h3⟩ :=
        ih before b (after ++ [x]) hb (by
          intro a hmem
          rcases List.mem_append.mp hmem with h | h
          · exact ha a h
          · rw [List.mem_singleton.mp h]; exact not_lt.mp hx)
      refine ⟨before2, b2, after2, ?_, h1, h2, ?_⟩
      · rw [← heq]; simp
      · simp only [List.foldl_cons, hx, if_false]
        exact h3

/-- C12: for a result with at least one alternative, the text passed to the
callback is the transcript of an alternative whose confidence (a missing one
counting as 0) is strictly greater than that of every earlier alternative and not
smaller than that of any later one, that is the first alternative of greatest
confidence; the handler calls the callback once, with that transcript alone. -/
theorem onresult_passes_best_transcript (alts : List Alternative) (hne : alts ≠ []) :
    ∃ (before : List Alternative) (best : Alternative) (after : List Alternative),
      alts = before ++ best :: after ∧
      (∀ a ∈ before, a.confidence.getD 0 < best.confidence.getD 0) ∧
      (∀ a ∈ after, a.confidence.getD 0 ≤ best.confidence.getD 0) ∧
      bestTranscript alts = some best.transcript ∧
      (∀ (cb : RecogCallback) (w : World),
        onresult cb alts w = invokeCallback cb best.transcript w) ∧
      (∀ (tag : Nat) (w : World),
        (onresult (RecogCallback.caller tag) alts w).log
          = w.log ++ [Obs.heard tag best.transcript]) ∧
      (∀ (dest : String) (h : Bool) (w : World),
        onresult (RecogCallback.confirm dest h) alts w
          = confirmCallback dest h best.transcript w) := by
  cases alts with
  | nil => exact absurd rfl hne
  | cons a rest =>
    obtain ⟨before, best, after, heq, h1, h2, h3⟩ :=
      bestLoop_spec rest [] a [] (by simp) (by simp)
    have hb : bestTranscript (a :: rest) = some best.transcript := by
      simp only [bestTranscript, h3]
    refine ⟨before, best, after, by simpa using heq, h1, h2, hb, ?_, ?_, ?_⟩
    · intro cb w
      simp only [onresult, hb]
    · intro tag w
      simp only [onresult, hb, invokeCallback]
    · intro dest h w
      simp only [onresult, hb, invokeCallback]

/-- Witness for C12: three alternatives, the second and third tie at the top, the
first has no confidence. -/
theorem onresult_passes_best_transcript_witness :
    ([{ transcript := "nae", confidence := none },
      { transcript := "네", confidence := some (9 / 10) },
      { transcript := "내", confidence := some (9 / 10) }] : List Alternative) ≠ [] ∧
    bestTranscript [{ transcript := "nae", confidence := none },
      { transcript := "네", confidence := some (9 / 10) },
      { transcript := "내", confidence := some (9 / 10) }] = some "네" ∧
    ∃ (before : List Alternative) (best : Alternative) (after : List Alternative),
      ([{ transcript := "nae", confidence := none },
        { transcript := "네", confidence := some (9 / 10) },
        { transcript := "내", confidence := some (9 / 10) }] : List Alternative)
          = before ++ best :: after ∧
      (∀ a ∈ before, a.confidence.getD 0 < best.confidence.getD 0) ∧
      (∀ a ∈ after, a.confidence.getD 0 ≤ best.confidence.getD 0) ∧
      bestTranscript [{ transcript := "nae", confidence := none },
        { transcript := "네", confidence := some (9 / 10) },
        { transcript := "내", confidence := some (9 / 10) }] = some best.transcript := by
  refine ⟨by simp, by norm_num [bestTranscript], ?_⟩
  obtain ⟨before, best, after, h1, h2, h3, h4, _⟩ :=
    onresult_passes_best_transcript
      [{ transcript := "nae", confidence := none },
        { transcript := "네", confidence := some (9 / 10) },
        { transcript := "내", confidence := some (9 / 10) }] (by simp)
  exact ⟨before, best, after, h1, h2, h3, h4⟩

@[simp] theorem speak_timers (t : String) (p : Priority) (w : World) :
    (speak t p w).timers = w.timers := by
  unfold speak processVoiceQueue synthesisCancel
  simp only []
  split_ifs <;> first | rfl | (split <;> rfl)

@[simp] theorem speak_isListening (t : String) (p : Priority) (w : World) :
    (speak t p w).svc.isListening = w.svc.isListening := by
  unfold speak processVoiceQueue synthesisCancel
  simp only []
  split_ifs <;> first | rfl | (split <;> rfl)

/-- C13, counterexample: a network error while "a" plays and "b" waits. The message
is requested at normal priority; "a" is not cancelled, "b" stays in the queue and
the message is put behind it. -/
theorem onerror_does_not_preempt :
    speakRequests (onerror "network"
      (speak "b" Priority.normal (speak "a" Priority.normal (World.init true true)))).log
      = [("a", Priority.normal), ("b", Priority.normal),
         ("네트워크 오류로 음성 인식이 실패했습니다. 인터넷 연결을 확인해주세요.", Priority.normal)] ∧
    (speak "b" Priority.normal
      (speak "a" Priority.normal (World.init true true))).svc.isSpeaking = true ∧
    (onerror "network"
      (speak "b" Priority.normal (speak "a" Priority.normal (World.init true true)))).active
      = ["a"] ∧
    (onerror "network"
      (speak "b" Priority.normal (speak "a" Priority.normal (World.init true true)))).cancelled
      = 0 ∧
    (onerror "network"
      (speak "b" Priority.normal
        (speak "a" Priority.normal (World.init true true)))).svc.voiceQueue
      = ["b", "네트워크 오류로 음성 인식이 실패했습니다. 인터넷 연결을 확인해주세요."] := by
  decide

/-- C13, as amended: for every error code the handler makes exactly one speak
request, for the message of that code, at normal priority (the default of `speak`);
when the voice is enabled and an utterance is playing, nothing is cancelled and the
message is appended behind the texts already waiting. -/
theorem onerror_speaks_at_normal_priority (code : String) (w : World) :
    speakRequests (onerror code w).log
      = speakRequests w.log ++ [(recognitionErrorMessage code, Priority.normal)] ∧
    (w.svc.isVoiceEnabled = true → w.synthesisUsable = true → w.svc.isSpeaking = true →
      (onerror code w).active = w.active ∧
      (onerror code w).cancelled = w.cancelled ∧
      (onerror code w).handed = w.handed ∧
      (onerror code w).svc.voiceQueue = w.svc.voiceQueue ++ [recognitionErrorMessage code]) := by
  constructor
  · unfold onerror
    simp only []
    split_ifs <;> simp [speakRequests_append, speakRequests]
  · intro hen hus hsp
    have key := speak_normal_busy (recognitionErrorMessage code)
      { w with svc := { w.svc with isListening := false } } hen hus hsp
    unfold onerror
    simp only []
    rw [key]
    split_ifs <;> exact ⟨rfl, rfl, rfl, rfl⟩

/-- Witness for C13 as amended: the "no-speech" error while "a" plays. -/
theorem onerror_speaks_at_normal_priority_witness :
    (speak "a" Priority.normal (World.init true true)).svc.isVoiceEnabled = true ∧
    (speak "a" Priority.normal (World.init true true)).synthesisUsable = true ∧
    (speak "a" Priority.normal (World.init true true)).svc.isSpeaking = true ∧
    (onerror "no-speech" (speak "a" Priority.normal (World.init true true))).active
      = (speak "a" Priority.normal (World.init true true)).active ∧
    (onerror "no-speech" (speak "a" Priority.normal (World.init true true))).svc.voiceQueue
      = (speak "a" Priority.normal (World.init true true)).svc.voiceQueue
        ++ [recognitionErrorMessage "no-speech"] :=
  ⟨by decide, by decide, by decide,
    ((onerror_speaks_at_normal_priority "no-speech"
      (speak "a" Priority.normal (World.init true true))).2
        (by decide) (by decide) (by decide)).1,
    ((onerror_speaks_at_normal_priority "no-speech"
      (speak "a" Priority.normal (World.init true true))).2
        (by decide) (by decide) (by decide)).2.2.2⟩

/-- C14: the error handler always clears `isListening`; it schedules a retry, one
only, exactly when the code is "no-speech" or "aborted", with a delay of 2000 ms;
when that continuation runs it calls `startListening` if `isListening` is false and
does nothing otherwise. -/
theorem onerror_retry_policy (code : String) (w : World) :
    (onerror code w).svc.isListening = false ∧
    ((code = "no-speech" ∨ code = "aborted") →
      (onerror code w).timers = w.timers ++ [Timer.retry]) ∧
    (¬ (code = "no-speech" ∨ code = "aborted") → (onerror code w).timers = w.timers) ∧
    ((onerror code w).timers.count Timer.retry = w.timers.count Timer.retry + 1 ↔
      (code = "no-speech" ∨ code = "aborted")) ∧
    Timer.delayMs Timer.retry = 2000 ∧
    (∀ v : World, v.svc.isListening = true → fireTimer Timer.retry v = v) ∧
    (∀ v : World, v.svc.isListening = false →
      fireTimer Timer.retry v = startListening v) := by
  have h1 : (code = "no-speech" ∨ code = "aborted") →
      (onerror code w).timers = w.timers ++ [Timer.retry] := by
    intro hc
    unfold onerror
    simp only [hc, if_true, speak_timers]
  have h2 : ¬ (code = "no-speech" ∨ code = "aborted") → (onerror code w).timers = w.timers := by
    intro hc
    unfold onerror
    simp only [hc, if_false, speak_timers]
  refine ⟨?_, h1, h2, ?_, rfl, ?_, ?_⟩
  · unfold onerror
    simp only []
    split_ifs <;> simp
  · by_cases hc : code = "no-speech" ∨ code = "aborted"
    · simp [h1 hc, hc, List.count_append]
    · simp [h2 hc, hc]
  · intro v hv
    simp [fireTimer, hv]
  · intro v hv
    simp [fireTimer, hv]

/-- Witness for C14: "no-speech" on a fresh service schedules the retry, "network" does not. -/
theorem onerror_retry_policy_witness :
    ("no-speech" = "no-speech" ∨ "no-speech" = "aborted") ∧
    (onerror "no-speech" (World.init true true)).timers = [] ++ [Timer.retry] ∧
    ¬ ("network" = "no-speech" ∨ "network" = "aborted") ∧
    (onerror "network" (World.init true true)).timers = [] :=
  ⟨Or.inl rfl,
    (onerror_retry_policy "no-speech" (World.init true true)).2.1 (Or.inl rfl),
    by decide,
    (onerror_retry_policy "network" (World.init true true)).2.2.1 (by decide)⟩

/-- C15, failing run: after the first prompt of a confirmation, session 0 is
started and `isListening` is true; a negative answer makes `askNext` create
session 1 and start it, successfully, while `isListening` is still true, so that
both recognition objects are running at once. Likewise a direct call of
`startListening` after a second `initSpeechRecognition` starts the new object
although `isListening` is true. -/
theorem session_started_while_listening :
    (confirmDestinations (Destinations.array ["X", "Y"]) true
      (World.init true true)).svc.isListening = true ∧
    (answerPrompt "아니오" (confirmDestinations (Destinations.array ["X", "Y"]) true
      (World.init true true))).map (fun w => (sessionsStarted w.log, startCount 1 w.log))
      = some ([0, 1], 1) ∧
    (answerPrompt "아니오" (confirmDestinations (Destinations.array ["X", "Y"]) true
      (World.init true true))).map (fun w => (isStarted 0 w, isStarted 1 w))
      = some (true, true) ∧
    (initSpeechRecognition RecogCallback.absent (startListening
      (initSpeechRecognition RecogCallback.absent (World.init true true)))).svc.isListening
      = true ∧
    (startListening (initSpeechRecognition RecogCallback.absent (startListening
      (initSpeechRecognition RecogCallback.absent (World.init true true))))).log
      = [Obs.newRecognition 0, Obs.recognitionStart 0 true, Obs.newRecognition 1,
         Obs.recognitionStart 1 true] := by
  decide

theorem find?_first (p : Voice → Bool) (before : List Voice) (v : Voice) (after : List Voice)
    (hb : ∀ u ∈ before, p u = false) (hv : p v = true) :
    (before ++ v :: after).find? p = some v := by
  induction before with
  | nil => simp [List.find?, hv]
  | cons u us ih =>
    have hu := hb u (List.mem_cons_self _ _)
    simp only [List.cons_append, List.find?, hu]
    exact ih (fun x hx => hb x (List.mem_cons_of_mem _ hx))

theorem find?_none_of_all (p : Voice → Bool) (l : List Voice)
    (h : ∀ u ∈ l, p u = false) : l.find? p = none := by
  rw [List.find?_eq_none]
  intro u hu
  simp [h u hu]

/-- C16: the preferred voice is the first voice whose language tag matches the
Korean pattern; when no voice does, the first whose tag matches the English
pattern; when no voice matches either, the first voice of the list; and for the
empty list the selection is none. -/
theorem setPreferredVoice_policy :
    (∀ (before : List Voice) (v : Voice) (after : List Voice),
      (∀ u ∈ before, isKoreanVoice u = false) → isKoreanVoice v = true →
      setPreferredVoice (before ++ v :: after) = some v) ∧
    (∀ (before : List Voice) (v : Voice) (after : List Voice),
      (∀ u ∈ before ++ v :: after, isKoreanVoice u = false) →
      (∀ u ∈ before, isEnglishVoice u = false) → isEnglishVoice v = true →
      setPreferredVoice (before ++ v :: after) = some v) ∧
    (∀ (v : Voice) (rest : List Voice),
      (∀ u ∈ v :: rest, isKoreanVoice u = false ∧ isEnglishVoice u = false) →
      setPreferredVoice (v :: rest) = some v) ∧
    setPreferredVoice [] = none := by
  refine ⟨?_, ?_, ?_, rfl⟩
  · intro before v after hb hv
    simp only [setPreferredVoice, find?_first isKoreanVoice before v after hb hv]
  · intro before v after hk hb hv
    simp only [setPreferredVoice, find?_none_of_all isKoreanVoice _ hk,
      find?_first isEnglishVoice before v after hb hv]
  · intro v rest h
    simp only [setPreferredVoice,
      find?_none_of_all isKoreanVoice _ (fun u hu => (h u hu).1),
      find?_none_of_all isEnglishVoice _ (fun u hu => (h u hu).2)]
    simp

/-- Witness for C16: English comes before Korean in the list, Korean is chosen;
without a Korean voice the English one is chosen although it is not first. -/
theorem setPreferredVoice_policy_witness :
    (∀ u ∈ [({ name := "Anna", lang := "de-DE" } : Voice), { name := "Sam", lang := "en-US" }],
      isKoreanVoice u = false) ∧
    isKoreanVoice { name := "Yuna", lang := "ko-KR" } = true ∧
    setPreferredVoice ([{ name := "Anna", lang := "de-DE" }, { name := "Sam", lang := "en-US" }]
        ++ { name := "Yuna", lang := "ko-KR" } :: [{ name := "Kim", lang := "KO" }])
      = some { name := "Yuna", lang := "ko-KR" } ∧
    setPreferredVoice ([{ name := "Anna", lang := "de-DE" }]
        ++ { name := "Sam", lang := "EN_us" } :: [{ name := "Tom", lang := "en-GB" }])
      = some { name := "Sam", lang := "EN_us" } ∧
    setPreferredVoice ({ name := "Anna", lang := "de-DE" } :: [{ name := "Luc", lang := "fr" }])
      = some { name := "Anna", lang := "de-DE" } :=
  ⟨by decide, by decide,
    setPreferredVoice_policy.1 _ _ _ (by decide) (by decide),
    setPreferredVoice_policy.2.1 [{ name := "Anna", lang := "de-DE" }]
      { name := "Sam", lang := "EN_us" } [{ name := "Tom", lang := "en-GB" }]
      (by decide) (by decide) (by decide),
    setPreferredVoice_policy.2.2.1 _ _ (by decide)⟩

theorem playInv_playNextMp3 (w : Mp3World) (h : PlayInv w) : PlayInv (playNextMp3 w) := by
  unfold playNextMp3
  rcases h with ⟨hp, hc⟩ | ⟨hp, hc⟩
  · simpa [hp] using Or.inl ⟨hp, hc⟩
  · by_cases hq : w.mp3Queue.length = 0
    · simpa [hp, hq] using Or.inr ⟨hp, hc⟩
    · simp only [hp, Bool.false_or, beq_iff_eq, hq, if_false]
      split
      · exact Or.inr ⟨rfl, hc⟩
      · rename_i e rest _
        exact Or.inl ⟨rfl, e.src, by simp [hc]⟩

theorem playInv_step (e : Mp3Event) (w w2 : Mp3World) (h : PlayInv w)
    (hstep : mp3Step e w = some w2) : PlayInv w2 := by
  have hfin : ∀ i, i < w.playing.length →
      PlayInv { w with playing := w.playing.eraseIdx i, isMp3Playing := false,
                       timers := w.timers + 1 } := by
    intro i hi
    rcases h with ⟨_, c, hc⟩ | ⟨_, hc⟩
    · have : i = 0 := by
        rw [hc] at hi
        simpa using hi
      subst this
      exact Or.inr ⟨rfl, by simp [hc]⟩
    · rw [hc] at hi
      simp at hi
  cases e with
  | enqueueMp3 src =>
    simp only [mp3Step, Option.some.injEq] at hstep
    subst hstep
    unfold enqueueMp3
    split_ifs
    · exact h
    · exact playInv_playNextMp3 _ h
  | advance ms =>
    simp only [mp3Step, Option.some.injEq] at hstep
    subst hstep
    exact h
  | ended i =>
    by_cases hi : i < w.playing.length
    · simp only [mp3Step, hi, if_true, Option.some.injEq] at hstep
      subst hstep
      exact hfin i hi
    · simp [mp3Step, hi] at hstep
  | failed i =>
    by_cases hi : i < w.playing.length
    · simp only [mp3Step, hi, if_true, Option.some.injEq] at hstep
      subst hstep
      exact hfin i hi
    · simp [mp3Step, hi] at hstep
  | timer =>
    by_cases ht : w.timers = 0
    · simp [mp3Step, ht] at hstep
    · simp only [mp3Step, ht, if_false, Option.some.injEq] at hstep
      subst hstep
      exact playInv_playNextMp3 _ h

theorem playInv_run (es : List Mp3Event) :
    ∀ (w w2 : Mp3World), PlayInv w → mp3Run es w = some w2 → PlayInv w2 := by
  induction es with
  | nil =>
    intro w w2 h hrun
    simp only [mp3Run, Option.some.injEq] at hrun
    subst hrun
    exact h
  | cons e es ih =>
    intro w w2 h hrun
    simp only [mp3Run] at hrun
    cases hs : mp3Step e w with
    | none => simp [hs] at hrun
    | some w1 =>
      rw [hs] at hrun
      exact ih w1 w2 (playInv_step e w w1 h hs) hrun

/-- C20: in every state reached from the start by calls of `enqueueMp3`, the clock
moving on, `ended` events, playback failures and 100 ms continuations, at most one
clip is playing, and `isMp3Playing` is true exactly when a started clip has not yet
ended or failed; `playNextMp3` starts a clip only when `isMp3Playing` is false. -/
theorem at_most_one_clip_playing (es : List Mp3Event) (now : Nat) (w : Mp3World)
    (hrun : mp3Run es (Mp3World.init now) = some w) :
    w.playing.length ≤ 1 ∧
    (w.isMp3Playing = true ↔ w.playing ≠ []) ∧
    (∀ v : Mp3World,
      ((playNextMp3 v).playing ≠ v.playing ∨ (playNextMp3 v).played ≠ v.played) →
      v.isMp3Playing = false) := by
  have hinv : PlayInv w := playInv_run es _ w (Or.inr ⟨rfl, rfl⟩) hrun
  refine ⟨?_, ?_, ?_⟩
  · rcases hinv with ⟨_, c, hc⟩ | ⟨_, hc⟩ <;> simp [hc]
  · rcases hinv with ⟨hp, c, hc⟩ | ⟨hp, hc⟩ <;> simp [hp, hc]
  · intro v hv
    by_contra hp
    have hp2 : v.isMp3Playing = true := by simpa using hp
    have : playNextMp3 v = v := by
      unfold playNextMp3
      simp [hp2]
    rw [this] at hv
    rcases hv with h | h <;> exact h rfl

/-- Witness for C20: two requests, the first clip ends, the continuation starts the second. -/
theorem at_most_one_clip_playing_witness :
    mp3Run [Mp3Event.enqueueMp3 "a", Mp3Event.enqueueMp3 "b", Mp3Event.advance 900,
        Mp3Event.ended 0, Mp3Event.advance 100, Mp3Event.timer] (Mp3World.init 0)
      = some
        { mp3Queue := [], isMp3Playing := true,
          recentlyPlayedMp3 := [⟨"a", 0⟩, ⟨"b", 0⟩], now := 1000, playing := ["b"],
          played := [(⟨"a", 0⟩, 0), (⟨"b", 0⟩, 1000)], accepted := [⟨"a", 0⟩, ⟨"b", 0⟩],
          timers := 0 } ∧
    ["b"].length ≤ 1 :=
  ⟨by decide,
    (at_most_one_clip_playing [Mp3Event.enqueueMp3 "a", Mp3Event.enqueueMp3 "b",
      Mp3Event.advance 900, Mp3Event.ended 0, Mp3Event.advance 100, Mp3Event.timer] 0
      { mp3Queue := [], isMp3Playing := true,
        recentlyPlayedMp3 := [⟨"a", 0⟩, ⟨"b", 0⟩], now := 1000, playing := ["b"],
        played := [(⟨"a", 0⟩, 0), (⟨"b", 0⟩, 1000)], accepted := [⟨"a", 0⟩, ⟨"b", 0⟩],
        timers := 0 } (by decide)).1⟩

theorem purgeStale_suffix (now : Nat) (q : List Mp3Entry) : purgeStale now q <:+ q :=
  List.dropWhile_suffix _

theorem purgeStale_head_fresh (now : Nat) (q : List Mp3Entry) (e : Mp3Entry)
    (rest : List Mp3Entry) (h : purgeStale now q = e :: rest) : now - e.timestamp ≤ 2000 := by
  induction q with
  | nil => simp [purgeStale] at h
  | cons a as ih =>
    unfold purgeStale at h ih
    by_cases ha : now - a.timestamp > 2000
    · simp only [List.dropWhile, ha, decide_True] at h
      exact ih h
    · simp only [List.dropWhile, ha, decide_False] at h
      have : a = e := (List.cons.inj h).1
      subst this
      omega

theorem clockInv_playNextMp3 (w : Mp3World) (h : ClockInv w) : ClockInv (playNextMp3 w) := by
  unfold playNextMp3
  split_ifs
  · exact h
  · have hsuf := purgeStale_suffix w.now w.mp3Queue
    split
    · exact ⟨List.Pairwise.nil, by simp, h.recent, h.fresh⟩
    · rename_i e rest heq
      rw [heq] at hsuf
      have hmem : ∀ x ∈ e :: rest, x ∈ w.mp3Queue := fun x hx => hsuf.subset hx
      have hord : (e :: rest).Pairwise (fun a b => a.timestamp ≤ b.timestamp) :=
        h.ordered.sublist hsuf.sublist
      refine ⟨(List.pairwise_cons.mp hord).2,
        fun x hx => h.queued x (hmem x (List.mem_cons_of_mem _ hx)), h.recent, ?_⟩
      intro p hp
      rcases List.mem_append.mp hp with hp | hp
      · exact h.fresh p hp
      · rw [List.mem_singleton.mp hp]
        exact ⟨h.queued e (hmem e (List.mem_cons_self _ _)),
          purgeStale_head_fresh w.now w.mp3Queue e rest heq⟩

theorem mem_trim_of_mem (l : List Mp3Entry) (r : Mp3Entry)
    (h : r ∈ (if l.length > 10 then l.tail else l)) : r ∈ l := by
  split_ifs at h
  · exact List.mem_of_mem_tail h
  · exact h

theorem clockInv_enqueueMp3 (src : String) (w : Mp3World) (h : ClockInv w) :
    ClockInv (enqueueMp3 src w) := by
  unfold enqueueMp3
  split_ifs
  · exact h
  · apply clockInv_playNextMp3
    refine ⟨?_, ?_, ?_, h.fresh⟩
    · rw [List.pairwise_append]
      refine ⟨h.ordered, List.pairwise_singleton _ _, ?_⟩
      intro a ha b hb
      rw [List.mem_singleton.mp hb]
      exact h.queued a ha
    · intro e he
      rcases List.mem_append.mp he with he | he
      · exact h.queued e he
      · rw [List.mem_singleton.mp he]
    · intro r hr
      have hr2 := mem_trim_of_mem _ r hr
      rcases List.mem_append.mp hr2 with hr2 | hr2
      · exact h.recent r hr2
      · rw [List.mem_singleton.mp hr2]

theorem clockInv_step (e : Mp3Event) (w w2 : Mp3World) (h : ClockInv w)
    (hstep : mp3Step e w = some w2) : ClockInv w2 := by
  cases e with
  | enqueueMp3 src =>
    simp only [mp3Step, Option.some.injEq] at hstep
    subst hstep
    exact clockInv_enqueueMp3 src w h
  | advance ms =>
    simp only [mp3Step, Option.some.injEq] at hstep
    subst hstep
    exact ⟨h.ordered, fun e he => Nat.le_trans (h.queued e he) (Nat.le_add_right _ _),
      fun r hr => Nat.le_trans (h.recent r hr) (Nat.le_add_right _ _), h.fresh⟩
  | ended i =>
    by_cases hi : i < w.playing.length
    · simp only [mp3Step, hi, if_true, Option.some.injEq] at hstep
      subst hstep
      exact ⟨h.ordered, h.queued, h.recent, h.fresh⟩
    · simp [mp3Step, hi] at hstep
  | failed i =>
    by_cases hi : i < w.playing.length
    · simp only [mp3Step, hi, if_true, Option.some.injEq] at hstep
      subst hstep
      exact ⟨h.ordered, h.queued, h.recent, h.fresh⟩
    · simp [mp3Step, hi] at hstep
  | timer =>
    by_cases ht : w.timers = 0
    · simp [mp3Step, ht] at hstep
    · simp only [mp3Step, ht, if_false, Option.some.injEq] at hstep
      subst hstep
      exact clockInv_playNextMp3 _ ⟨h.ordered, h.queued, h.recent, h.fresh⟩

theorem clockInv_run (es : List Mp3Event) :
    ∀ (w w2 : Mp3World), ClockInv w → mp3Run es w = some w2 → ClockInv w2 := by
  induction es with
  | nil =>
    intro w w2 h hrun
    simp only [mp3Run, Option.some.injEq] at hrun
    subst hrun
    exact h
  | cons e es ih =>
    intro w w2 h hrun
    simp only [mp3Run] at hrun
    cases hs : mp3Step e w with
    | none => simp [hs] at hrun
    | some w1 =>
      rw [hs] at hrun
      exact ih w1 w2 (clockInv_step e w w1 h hs) hrun

theorem clockInv_init (now : Nat) : ClockInv (Mp3World.init now) :=
  ⟨List.Pairwise.nil, by simp [Mp3World.init], by simp [Mp3World.init],
    by simp [Mp3World.init]⟩

/-- C19: in every state reached from the start (the clock only moves forward),
every clip handed to playback was enqueued at most 2000 ms before its playback
started; the play queue is ordered by enqueue time, so when `playNextMp3` runs its
purge (nothing is playing) no entry left in the queue is older than 2000 ms, and
the clip it starts is the first entry that is not stale; when the purge empties the
queue nothing is played and the player stays idle. -/
theorem playNextMp3_never_plays_stale (es : List Mp3Event) (now : Nat) (w : Mp3World)
    (hrun : mp3Run es (Mp3World.init now) = some w) :
    (∀ p ∈ w.played, p.1.timestamp ≤ p.2 ∧ p.2 - p.1.timestamp ≤ 2000) ∧
    w.mp3Queue.Pairwise (fun a b => a.timestamp ≤ b.timestamp) ∧
    (w.isMp3Playing = false →
      ∀ e ∈ (playNextMp3 w).mp3Queue, w.now - e.timestamp ≤ 2000) ∧
    (w.isMp3Playing = false → ∀ e rest, purgeStale w.now w.mp3Queue = e :: rest →
      w.now - e.timestamp ≤ 2000 ∧
      (playNextMp3 w).played = w.played ++ [(e, w.now)] ∧
      (playNextMp3 w).mp3Queue = rest) ∧
    (w.isMp3Playing = false → purgeStale w.now w.mp3Queue = [] →
      (playNextMp3 w).played = w.played ∧ (playNextMp3 w).playing = w.playing ∧
      (playNextMp3 w).isMp3Playing = false ∧ (playNextMp3 w).mp3Queue = []) := by
  have hinv : ClockInv w := clockInv_run es _ w (clockInv_init now) hrun
  refine ⟨hinv.fresh, hinv.ordered, ?_, ?_, ?_⟩
  · intro hp e he
    unfold playNextMp3 at he
    by_cases hq : w.mp3Queue.length = 0
    · have : w.mp3Queue = [] := List.length_eq_zero.mp hq
      simp [hp, this] at he
    · simp only [hp, Bool.false_or, beq_iff_eq, hq, if_false] at he
      have hsuf := purgeStale_suffix w.now w.mp3Queue
      split at he
      · simp at he
      · rename_i e0 rest heq
        rw [heq] at hsuf
        have hord : (e0 :: rest).Pairwise (fun a b => a.timestamp ≤ b.timestamp) :=
          hinv.ordered.sublist hsuf.sublist
        have h0 := purgeStale_head_fresh w.now w.mp3Queue e0 rest heq
        have hle := (List.pairwise_cons.mp hord).1 e he
        omega
  · intro hp e rest heq
    have hq : ¬ w.mp3Queue.length = 0 := by
      intro h0
      have : w.mp3Queue = [] := List.length_eq_zero.mp h0
      simp [purgeStale, this] at heq
    refine ⟨purgeStale_head_fresh w.now w.mp3Queue e rest heq, ?_, ?_⟩ <;>
      simp [playNextMp3, hp, hq, heq]
  · intro hp heq
    by_cases hq : w.mp3Queue.length = 0
    · have : w.mp3Queue = [] := List.length_eq_zero.mp hq
      simp [playNextMp3, hp, this]
    · simp [playNextMp3, hp, hq, heq]

/-- Witness for C19: "a" plays for 2500 ms while "b" and, 1500 ms later, "c" wait;
when the continuation runs, "b" is 2600 ms old and is dropped, "c" is played. -/
theorem playNextMp3_never_plays_stale_witness :
    mp3Run [Mp3Event.enqueueMp3 "a", Mp3Event.enqueueMp3 "b", Mp3Event.advance 1500,
        Mp3Event.enqueueMp3 "c", Mp3Event.advance 1000, Mp3Event.ended 0,
        Mp3Event.advance 100] (Mp3World.init 0)
      = some
        { mp3Queue := [⟨"b", 0⟩, ⟨"c", 1500⟩], isMp3Playing := false,
          recentlyPlayedMp3 := [⟨"a", 0⟩, ⟨"b", 0⟩, ⟨"c", 1500⟩], now := 2600, playing := [],
          played := [(⟨"a", 0⟩, 0)], accepted := [⟨"a", 0⟩, ⟨"b", 0⟩, ⟨"c", 1500⟩],
          timers := 1 } ∧
    purgeStale 2600 [⟨"b", 0⟩, ⟨"c", 1500⟩] = [⟨"c", 1500⟩] ∧
    2600 - 1500 ≤ 2000 := by
  refine ⟨by decide, by decide, ?_⟩
  exact ((playNextMp3_never_plays_stale
    [Mp3Event.enqueueMp3 "a", Mp3Event.enqueueMp3 "b", Mp3Event.advance 1500,
      Mp3Event.enqueueMp3 "c", Mp3Event.advance 1000, Mp3Event.ended 0,
      Mp3Event.advance 100] 0
    { mp3Queue := [⟨"b", 0⟩, ⟨"c", 1500⟩], isMp3Playing := false,
      recentlyPlayedMp3 := [⟨"a", 0⟩, ⟨"b", 0⟩, ⟨"c", 1500⟩], now := 2600, playing := [],
      played := [(⟨"a", 0⟩, 0)], accepted := [⟨"a", 0⟩, ⟨"b", 0⟩, ⟨"c", 1500⟩],
      timers := 1 } (by decide)).2.2.2.1 rfl ⟨"c", 1500⟩ [] (by decide)).1

theorem playNextMp3_frame (w : Mp3World) :
    (playNextMp3 w).recentlyPlayedMp3 = w.recentlyPlayedMp3 ∧
    (playNextMp3 w).now = w.now ∧ (playNextMp3 w).accepted = w.accepted := by
  unfold playNextMp3
  split_ifs
  · exact ⟨rfl, rfl, rfl⟩
  · split <;> exact ⟨rfl, rfl, rfl⟩

/-- Events other than requests leave the recent-play history and the accepted
entries alone, and the clock does not go back. -/
theorem notRequest_run (es : List Mp3Event) :
    ∀ (w w2 : Mp3World), (∀ e ∈ es, isNotRequest e = true) → mp3Run es w = some w2 →
      w2.recentlyPlayedMp3 = w.recentlyPlayedMp3 ∧ w2.accepted = w.accepted ∧
      w.now ≤ w2.now := by
  induction es with
  | nil =>
    intro w w2 _ hrun
    simp only [mp3Run, Option.some.injEq] at hrun
    subst hrun
    exact ⟨rfl, rfl, Nat.le_refl _⟩
  | cons e es ih =>
    intro w w2 hes hrun
    simp only [mp3Run] at hrun
    cases hs : mp3Step e w with
    | none => simp [hs] at hrun
    | some w1 =>
      rw [hs] at hrun
      obtain ⟨h1, h2, h3⟩ := ih w1 w2 (fun x hx => hes x (List.mem_cons_of_mem _ hx)) hrun
      have he := hes e (List.mem_cons_self _ _)
      have key : w1.recentlyPlayedMp3 = w.recentlyPlayedMp3 ∧ w1.accepted = w.accepted ∧
          w.now ≤ w1.now := by
        cases e with
        | enqueueMp3 src => simp [isNotRequest] at he
        | advance ms =>
          simp only [mp3Step, Option.some.injEq] at hs
          subst hs
          exact ⟨rfl, rfl, Nat.le_add_right _ _⟩
        | ended i =>
          by_cases hi : i < w.playing.length
          · simp only [mp3Step, hi, if_true, Option.some.injEq] at hs
            subst hs
            exact ⟨rfl, rfl, Nat.le_refl _⟩
          · simp [mp3Step, hi] at hs
        | failed i =>
          by_cases hi : i < w.playing.length
          · simp only [mp3Step, hi, if_true, Option.some.injEq] at hs
            subst hs
            exact ⟨rfl, rfl, Nat.le_refl _⟩
          · simp [mp3Step, hi] at hs
        | timer =>
          by_cases ht : w.timers = 0
          · simp [mp3Step, ht] at hs
          · simp only [mp3Step, ht, if_false, Option.some.injEq] at hs
            subst hs
            obtain ⟨f1, f2, f3⟩ := playNextMp3_frame { w with timers := w.timers - 1 }
            exact ⟨f1, f3, Nat.le_of_eq f2.symm⟩
      exact ⟨h1.trans key.1, h2.trans key.2.1, Nat.le_trans key.2.2 h3⟩

theorem mem_dropWhile_last (p : Mp3Entry → Bool) (x : Mp3Entry) (hx : p x = false) :
    ∀ q : List Mp3Entry, x ∈ (q ++ [x]).dropWhile p := by
  intro q
  induction q with
  | nil => simp [List.dropWhile, hx]
  | cons a as ih =>
    by_cases ha : p a = true
    · simpa [List.dropWhile, ha] using ih
    · have ha2 : p a = false := by simpa using ha
      simp [List.dropWhile, ha2]

theorem mem_trim_last (l : List Mp3Entry) (x : Mp3Entry) :
    x ∈ (if (l ++ [x]).length > 10 then (l ++ [x]).tail else l ++ [x]) := by
  split_ifs
  · cases l with
    | nil => simp at *
    | cons y ys => simp
  · simp

theorem playNextMp3_newest (v : Mp3World) (q : List Mp3Entry) (x : Mp3Entry)
    (hq : v.mp3Queue = q ++ [x]) (hx : x.timestamp = v.now) :
    x ∈ (playNextMp3 v).mp3Queue ∨ (x, v.now) ∈ (playNextMp3 v).played := by
  unfold playNextMp3
  split_ifs
  · left
    simp [hq]
  · have hm := mem_dropWhile_last (fun e => decide (v.now - e.timestamp > 2000)) x
      (by simp [hx]) q
    simp only [purgeStale, hq]
    split
    · rename_i heq
      rw [heq] at hm
      simp at hm
    · rename_i e rest heq
      rw [heq] at hm
      rcases List.mem_cons.mp hm with h | h
      · right
        simp [h]
      · left
        exact h

theorem playNextMp3_busy (v : Mp3World) (hp : v.isMp3Playing = true) : playNextMp3 v = v := by
  simp [playNextMp3, hp]

theorem playNextMp3_single (v : Mp3World) (x : Mp3Entry) (hp : v.isMp3Playing = false)
    (hq : v.mp3Queue = [x]) (hx : x.timestamp = v.now) :
    (playNextMp3 v).played = v.played ++ [(x, v.now)] ∧ (playNextMp3 v).isMp3Playing = true := by
  simp [playNextMp3, hp, hq, purgeStale, List.dropWhile, hx]

/-- An accepted request: recorded, queued, and then either waiting or played at once. -/
theorem enqueueMp3_accepted (src : String) (w : Mp3World)
    (hacc : recentlyRequested src w = false) :
    (enqueueMp3 src w).accepted = w.accepted ++ [{ src := src, timestamp := w.now }] ∧
    { src := src, timestamp := w.now } ∈ (enqueueMp3 src w).recentlyPlayedMp3 ∧
    (({ src := src, timestamp := w.now } : Mp3Entry) ∈ (enqueueMp3 src w).mp3Queue ∨
      (({ src := src, timestamp := w.now } : Mp3Entry), w.now) ∈ (enqueueMp3 src w).played) ∧
    (w.isMp3Playing = true →
      ({ src := src, timestamp := w.now } : Mp3Entry) ∈ (enqueueMp3 src w).mp3Queue ∧
      (enqueueMp3 src w).played = w.played) ∧
    (w.isMp3Playing = false → w.mp3Queue = [] →
      (enqueueMp3 src w).played = w.played ++ [({ src := src, timestamp := w.now }, w.now)] ∧
      (enqueueMp3 src w).isMp3Playing = true) := by
  unfold enqueueMp3
  simp only [hacc, Bool.false_eq_true, if_false]
  refine ⟨?_, ?_, ?_, ?_, ?_⟩
  · rw [(playNextMp3_frame _).2.2]
  · rw [(playNextMp3_frame _).1]
    exact mem_trim_last _ _
  · exact playNextMp3_newest _ w.mp3Queue _ rfl rfl
  · intro hp
    simp [playNextMp3, hp]
  · intro hp hq
    exact playNextMp3_single _ _ hp (by simp [hq]) rfl

/-- C17, counterexample: "a" is requested at 0 and plays for 4001 ms; the second
request at 2000 is accepted and waits; when the continuation runs at 4101 the
waiting entry is 2101 ms old and is purged. Two requests 2000 ms apart were
accepted, one playback of "a" took place, and the player is at rest. -/
theorem accepted_twice_played_once :
    mp3Run [Mp3Event.enqueueMp3 "a", Mp3Event.advance 2000, Mp3Event.enqueueMp3 "a",
        Mp3Event.advance 2001, Mp3Event.ended 0, Mp3Event.advance 100, Mp3Event.timer]
      (Mp3World.init 0)
      = some
        { mp3Queue := [], isMp3Playing := false,
          recentlyPlayedMp3 := [⟨"a", 0⟩, ⟨"a", 2000⟩], now := 4101, playing := [],
          played := [(⟨"a", 0⟩, 0)], accepted := [⟨"a", 0⟩, ⟨"a", 2000⟩], timers := 0 } := by
  decide

/-- C17, as amended: let a request for `a` be accepted at time t1 in a state reached
from the start, and let t2 be the time after further events none of which is a
request. A second request for `a` at t2 with t2 - t1 < 2000 changes nothing at all
(queue, history and playbacks as before); with t2 - t1 ≥ 2000 it is accepted,
recorded in the history and queued. An accepted request is played at once when
nothing is playing and nothing is waiting; while a clip is playing it waits in the
queue and no playback starts. -/
theorem repeated_request_window (es0 es : List Mp3Event) (now0 : Nat) (a : String)
    (w0 w2 : Mp3World)
    (h0 : mp3Run es0 (Mp3World.init now0) = some w0)
    (hacc : recentlyRequested a w0 = false)
    (hes : ∀ e ∈ es, isNotRequest e = true)
    (h2 : mp3Run es (enqueueMp3 a w0) = some w2) :
    w0.now ≤ w2.now ∧
    (enqueueMp3 a w0).accepted = w0.accepted ++ [{ src := a, timestamp := w0.now }] ∧
    (w2.now - w0.now < 2000 → enqueueMp3 a w2 = w2) ∧
    (2000 ≤ w2.now - w0.now →
      (enqueueMp3 a w2).accepted = w2.accepted ++ [{ src := a, timestamp := w2.now }] ∧
      { src := a, timestamp := w2.now } ∈ (enqueueMp3 a w2).recentlyPlayedMp3 ∧
      (({ src := a, timestamp := w2.now } : Mp3Entry) ∈ (enqueueMp3 a w2).mp3Queue ∨
        (({ src := a, timestamp := w2.now } : Mp3Entry), w2.now) ∈ (enqueueMp3 a w2).played) ∧
      (w2.isMp3Playing = true →
        ({ src := a, timestamp := w2.now } : Mp3Entry) ∈ (enqueueMp3 a w2).mp3Queue ∧
        (enqueueMp3 a w2).played = w2.played) ∧
      (w2.isMp3Playing = false → w2.mp3Queue = [] →
        (enqueueMp3 a w2).played = w2.played ++ [({ src := a, timestamp := w2.now }, w2.now)] ∧
        (enqueueMp3 a w2).isMp3Playing = true)) := by
  have hinv0 : ClockInv w0 := clockInv_run es0 _ w0 (clockInv_init now0) h0
  obtain ⟨hr, _, hnow⟩ := notRequest_run es _ w2 hes h2
  have hfirst := enqueueMp3_accepted a w0 hacc
  have hnow1 : (enqueueMp3 a w0).now = w0.now := by
    unfold enqueueMp3
    simp only [hacc, Bool.false_eq_true, if_false]
    exact (playNextMp3_frame _).2.1
  rw [hnow1] at hnow
  have hold : ∀ r ∈ w2.recentlyPlayedMp3, r.timestamp ≤ w0.now := by
    intro r hmem
    rw [hr] at hmem
    have hi := (clockInv_enqueueMp3 a w0 hinv0).recent r hmem
    rw [hnow1] at hi
    exact hi
  refine ⟨hnow, hfirst.1, ?_, ?_⟩
  · intro hlt
    have hmem : ({ src := a, timestamp := w0.now } : Mp3Entry) ∈ w2.recentlyPlayedMp3 := by
      rw [hr]
      exact hfirst.2.1
    have hreq : recentlyRequested a w2 = true := by
      unfold recentlyRequested
      rw [List.any_eq_true]
      exact ⟨_, hmem, by simp [hlt]⟩
    unfold enqueueMp3
    simp [hreq]
  · intro hge
    have hreq : recentlyRequested a w2 = false := by
      unfold recentlyRequested
      rw [List.any_eq_false]
      intro r hmem
      have := hold r hmem
      simp
      intro _
      omega
    exact enqueueMp3_accepted a w2 hreq

/-- Witness for C17 as amended: "a" is requested on a fresh queue; a repetition
1999 ms later is dropped, a repetition 2000 ms later, when the clip has ended and
the continuation has run, is accepted and played at once. -/
theorem repeated_request_window_witness :
    recentlyRequested "a" (Mp3World.init 0) = false ∧
    (∀ e ∈ [Mp3Event.advance 1999], isNotRequest e = true) ∧
    enqueueMp3 "a"
      { mp3Queue := [], isMp3Playing := true, recentlyPlayedMp3 := [⟨"a", 0⟩], now := 1999,
        playing := ["a"], played := [(⟨"a", 0⟩, 0)], accepted := [⟨"a", 0⟩], timers := 0 }
      = { mp3Queue := [], isMp3Playing := true, recentlyPlayedMp3 := [⟨"a", 0⟩], now := 1999,
          playing := ["a"], played := [(⟨"a", 0⟩, 0)], accepted := [⟨"a", 0⟩], timers := 0 } ∧
    (enqueueMp3 "a"
      { mp3Queue := [], isMp3Playing := false, recentlyPlayedMp3 := [⟨"a", 0⟩], now := 2000,
        playing := [], played := [(⟨"a", 0⟩, 0)], accepted := [⟨"a", 0⟩], timers := 0 }).played
      = [(⟨"a", 0⟩, 0)] ++ [(⟨"a", 2000⟩, 2000)] :=
  ⟨by decide, by decide,
    (repeated_request_window [] [Mp3Event.advance 1999] 0 "a" (Mp3World.init 0)
      { mp3Queue := [], isMp3Playing := true, recentlyPlayedMp3 := [⟨"a", 0⟩], now := 1999,
        playing := ["a"], played := [(⟨"a", 0⟩, 0)], accepted := [⟨"a", 0⟩], timers := 0 }
      (by decide) (by decide) (by decide) (by decide)).2.2.1 (by decide),
    (((repeated_request_window []
      [Mp3Event.advance 900, Mp3Event.ended 0, Mp3Event.advance 100, Mp3Event.timer,
        Mp3Event.advance 1000] 0 "a" (Mp3World.init 0)
      { mp3Queue := [], isMp3Playing := false, recentlyPlayedMp3 := [⟨"a", 0⟩], now := 2000,
        playing := [], played := [(⟨"a", 0⟩, 0)], accepted := [⟨"a", 0⟩], timers := 0 }
      (by decide) (by decide) (by decide) (by decide)).2.2.2 (by decide)).2.2.2.2
        rfl rfl).1⟩

/-- C18, failing run: "a" is accepted at 0, ten other clips are accepted one
millisecond later, which pushes the record of "a" out of the history of ten, and
"a" is accepted again at 11 ms: two accepted entries for "a" are 11 ms apart. -/
theorem duplicate_accepted_after_ten_others :
    (mp3Run ([Mp3Event.enqueueMp3 "a", Mp3Event.advance 1] ++
        (["b1", "b2", "b3", "b4", "b5", "b6", "b7", "b8", "b9", "b10"].map
          Mp3Event.enqueueMp3) ++
        [Mp3Event.advance 10])
      (Mp3World.init 0)).map (fun w => w.recentlyPlayedMp3.map (fun r => r.src))
      = some ["b1", "b2", "b3", "b4", "b5", "b6", "b7", "b8", "b9", "b10"] ∧
    (mp3Run ([Mp3Event.enqueueMp3 "a", Mp3Event.advance 1] ++
        (["b1", "b2", "b3", "b4", "b5", "b6", "b7", "b8", "b9", "b10"].map
          Mp3Event.enqueueMp3) ++
        [Mp3Event.advance 10, Mp3Event.enqueueMp3 "a"])
      (Mp3World.init 0)).map (fun w => w.accepted.filter (fun e => e.src = "a"))
      = some ([⟨"a", 0⟩, ⟨"a", 11⟩] : List Mp3Entry) := by
  decide

end SpeechJs
